import Mathlib

/-! The command actions of `cni-ipvlan-vpc-k8s-tool`.

A shallow embedding of `cmd/cni-ipvlan-vpc-k8s-tool/cni-ipvlan-vpc-k8s-tool.go`.

* Go strings are byte sequences (`GoString`).
* The collaborators (`aws.DefaultClient`, `aws.Registry`, `nl`) are oracles: each
  method is an arbitrary function of the calls made so far and of its arguments.
  Every call an action makes is appended to a chronological call log together
  with the error it returned.
* Writes to stdout and stderr are left out, except the number `actionMaxPods`
  prints.
-/

set_option autoImplicit false

namespace CniTool

/-! ## Strings, errors, maps -/

/-- A Go `string`: a sequence of bytes. -/
abbrev GoString := List UInt8

/-- The bytes of a string literal. -/
def goStr (s : String) : GoString := s.toList.flatMap String.utf8EncodeChar

deriving instance DecidableEq for Except

/-- A Go `error` value, represented by its message. -/
abbrev Err := GoString

/-- The byte `,`. -/
def comma : UInt8 := 44

/-- The byte `=`. -/
def equals : UInt8 := 61

/-- `strings.Split(s, sep)` for a separator `sep` of one byte: the pieces of `s`
between the occurrences of `sep`, in order (`n` occurrences give `n + 1` pieces). -/
def stringsSplit (sep : UInt8) : GoString → List GoString
  | [] => [[]]
  | b :: rest =>
    if b = sep then [] :: stringsSplit sep rest
    else
      match stringsSplit sep rest with
      | [] => [[b]]
      | p :: ps => (b :: p) :: ps

/-- A Go `map[string]string` with its keys kept distinct. -/
abbrev GoMap := List (GoString × GoString)

/-- The map lookup `m[k]` (with `none` for an absent key). -/
def GoMap.lookup : GoMap → GoString → Option GoString
  | [], _ => none
  | (k', v) :: rest, k => if k = k' then some v else GoMap.lookup rest k

/-- The map assignment `m[k] = v`. -/
def GoMap.set (m : GoMap) (k v : GoString) : GoMap :=
  (k, v) :: m.filter (fun p => decide (p.1 ≠ k))

/-- The keys of a map. -/
def GoMap.keys (m : GoMap) : List GoString := m.map Prod.fst

/-! ## filterBuild -/

/-- The `for _, t := range tuples` loop of `filterBuild`, with `ret` the map built
so far. -/
def filterBuildLoop : List GoString → GoMap → Except Err GoMap
  | [], ret => .ok ret
  | t :: ts, ret =>
    match stringsSplit equals t with
    | [k, v] =>
      if k.length ≤ 0 ∨ v.length ≤ 0 then
        .error (goStr "Zero length filter specified: " ++ t)
      else
        filterBuildLoop ts (ret.set k v)
    | _ => .error (goStr "Invalid filter specified " ++ t)

/-- The function `filterBuild`: `none` is the nil map returned for the empty input. -/
def filterBuild (input : GoString) : Except Err (Option GoMap) :=
  if input = [] then .ok none
  else
    match filterBuildLoop (stringsSplit comma input) [] with
    | .ok ret => .ok (some ret)
    | .error e => .error e

/-! ## Collaborators -/

/-- A Go `net.IP`: a byte slice. -/
abbrev IP := List UInt8

/-- An element of the list `nl.GetIPs` returns: the interface label and the
address `IPNet.IP` bound to it. -/
structure BoundIP where
  label : GoString
  ip : IP
deriving DecidableEq

/-- An interface as `GetInterfaces` returns it: the fields the tool uses for
further calls. -/
structure Interface where
  id : GoString
  vpcID : GoString
deriving DecidableEq

/-- The limits `ENILimits` returns, each an `int64`. -/
structure ENILimit where
  adapters : Int
  ipv4 : Int
  ipv6 : Int
deriving DecidableEq

/-- One call to a collaborator, with its arguments and the error it returned
(`none` for a nil error). -/
inductive Call where
  | newInterface (secGrps : List GoString) (filters : Option GoMap) (ipBatchSize : Int)
      (err : Option Err)
  | removeInterface (interfaces : List GoString) (err : Option Err)
  | deallocateIP (ip : IP) (err : Option Err)
  | allocateIPsFirstAvailableAtIndex (index ipBatchSize : Int) (err : Option Err)
  | findFreeIPsAtIndex (index : Int) (updateRegistry : Bool) (err : Option Err)
  | eniLimits (err : Option Err)
  | listBugs
  | getInterfaces (err : Option Err)
  | describeVPCCIDRs (vpcID : GoString) (err : Option Err)
  | describeVPCPeerCIDRs (vpcID : GoString) (err : Option Err)
  | getSubnetsForInstance (err : Option Err)
  | getIPs (err : Option Err)
  | registryList (err : Option Err)
  | trackedBefore (cutoff : Int) (err : Option Err)
  | forgetIP (ip : IP) (err : Option Err)
deriving DecidableEq

/-- The error a call returned. -/
def Call.err : Call → Option Err
  | .newInterface _ _ _ e => e
  | .removeInterface _ e => e
  | .deallocateIP _ e => e
  | .allocateIPsFirstAvailableAtIndex _ _ e => e
  | .findFreeIPsAtIndex _ _ e => e
  | .eniLimits e => e
  | .listBugs => none
  | .getInterfaces e => e
  | .describeVPCCIDRs _ e => e
  | .describeVPCPeerCIDRs _ e => e
  | .getSubnetsForInstance e => e
  | .getIPs e => e
  | .registryList e => e
  | .trackedBefore _ e => e
  | .forgetIP _ e => e

/-- The packages the tool calls, none of them part of its source file. Each
method of `aws.DefaultClient`, `aws.Registry` and `nl` takes the calls made so
far and its arguments; a method whose value the tool only prints gives the error
alone. `parseIP` is `net.ParseIP`, `ipEqual a b` is `a.Equal(b)` of `net.IP`,
`jitter d` is `aws.Jitter(d, 0.15)`, `now` is `time.Now()` in nanoseconds and
`lockfile` is the error, if any, with which `lib.LockfileRun` fails to take the
lock. -/
structure Collab where
  lockfile : Option Err
  parseIP : GoString → Option IP
  ipEqual : IP → IP → Bool
  jitter : Int → Int
  now : Int
  newInterface : List Call → List GoString → Option GoMap → Int → Option Err
  removeInterface : List Call → List GoString → Option Err
  deallocateIP : List Call → IP → Option Err
  allocateIPsFirstAvailableAtIndex : List Call → Int → Int → Option Err
  findFreeIPsAtIndex : List Call → Int → Bool → Option Err
  eniLimits : List Call → Except Err ENILimit
  getInterfaces : List Call → Except Err (List Interface)
  describeVPCCIDRs : List Call → GoString → Option Err
  describeVPCPeerCIDRs : List Call → GoString → Option Err
  getSubnetsForInstance : List Call → Option Err
  getIPs : List Call → Except Err (List BoundIP)
  registryList : List Call → Option Err
  trackedBefore : List Call → Int → Except Err (List IP)
  forgetIP : List Call → IP → Option Err

/-- The command line as `cli.Context` gives it to an action: the positional
arguments and the flags, each with the default of the flag table in `main`
(durations in nanoseconds). -/
structure Context where
  args : List GoString := []
  subnetFilter : GoString := []
  ipBatchSize : Int := 1
  index : Int := 0
  max : Int := 0
  freeAfter : Int := 0
  maxReap : Int := -1
deriving DecidableEq

/-- What an action does: the error it returns (`none` for nil), the collaborator
calls it made, in order, and the number it printed with `fmt.Printf("%d\n", _)`,
if any. -/
structure Outcome where
  err : Option Err
  calls : List Call
  printed : Option Int
deriving DecidableEq

/-- The least `int64`, `-2^63`. -/
def minInt64 : Int := -9223372036854775808

/-- The greatest `int64`, `2^63 - 1`. -/
def maxInt64 : Int := 9223372036854775807

/-- The value of an `int64` (or 64-bit `int`) expression whose mathematical
value is `n`. -/
def wrapInt64 (n : Int) : Int :=
  (n + 9223372036854775808) % 18446744073709551616 - 9223372036854775808

/-- Modelled from the spec: `lib.LockfileRun`, which is not in the source file.
"The Lock Coordinator failing to acquire its lock ... aborts the operation with
no state mutation attempted"; with the lock held it returns what `run` returns. -/
def LockfileRun (c : Collab) (run : Outcome) : Outcome :=
  match c.lockfile with
  | some e => ⟨some e, [], none⟩
  | none => run

/-! ## The actions -/

/-- The action `actionNewInterface`. -/
def actionNewInterface (c : Collab) (ctx : Context) : Outcome :=
  LockfileRun c <|
    match filterBuild ctx.subnetFilter with
    | .error e => ⟨some e, [], none⟩
    | .ok filters =>
      let ipBatchSize := ctx.ipBatchSize
      let secGrps := ctx.args
      if secGrps.length ≤ 0 then ⟨some (goStr "need security groups"), [], none⟩
      else
        match c.newInterface [] secGrps filters ipBatchSize with
        | some e => ⟨some e, [Call.newInterface secGrps filters ipBatchSize (some e)], none⟩
        | none => ⟨none, [Call.newInterface secGrps filters ipBatchSize none], none⟩

/-- The action `actionBugs`. -/
def actionBugs (c : Collab) (_ctx : Context) : Outcome :=
  LockfileRun c ⟨none, [Call.listBugs], none⟩

/-- The action `actionRemoveInterface`. -/
def actionRemoveInterface (c : Collab) (ctx : Context) : Outcome :=
  LockfileRun c <|
    let interfaces := ctx.args
    if interfaces.length ≤ 0 then ⟨some (goStr "Insufficent Arguments"), [], none⟩
    else
      match c.removeInterface [] interfaces with
      | some e => ⟨some e, [Call.removeInterface interfaces (some e)], none⟩
      | none => ⟨none, [Call.removeInterface interfaces none], none⟩

/-- The `for _, toRelease := range releaseIps` loop of `actionDeallocate`, with
`log` the calls made so far. -/
def deallocateLoop (c : Collab) : List GoString → List Call → Outcome
  | [], log => ⟨none, log, none⟩
  | toRelease :: rest, log =>
    if toRelease.length < 6 then ⟨some (goStr "Invalid IP"), log, none⟩
    else
      match c.parseIP toRelease with
      | none => ⟨some (goStr "IP parse error"), log, none⟩
      | some ip =>
        match c.deallocateIP log ip with
        | some e => ⟨some e, log ++ [Call.deallocateIP ip (some e)], none⟩
        | none => deallocateLoop c rest (log ++ [Call.deallocateIP ip none])

/-- The action `actionDeallocate`. -/
def actionDeallocate (c : Collab) (ctx : Context) : Outcome :=
  LockfileRun c (deallocateLoop c ctx.args [])

/-- The action `actionAllocate`. -/
def actionAllocate (c : Collab) (ctx : Context) : Outcome :=
  LockfileRun c <|
    let index := ctx.index
    let ipBatchSize := ctx.ipBatchSize
    match c.allocateIPsFirstAvailableAtIndex [] index ipBatchSize with
    | some e => ⟨some e, [Call.allocateIPsFirstAvailableAtIndex index ipBatchSize (some e)], none⟩
    | none => ⟨none, [Call.allocateIPsFirstAvailableAtIndex index ipBatchSize none], none⟩

/-- The action `actionFreeIps`. -/
def actionFreeIps (c : Collab) (_ctx : Context) : Outcome :=
  match c.findFreeIPsAtIndex [] 0 false with
  | some e => ⟨some e, [Call.findFreeIPsAtIndex 0 false (some e)], none⟩
  | none => ⟨none, [Call.findFreeIPsAtIndex 0 false none], none⟩

/-- The action `actionLimits`. -/
def actionLimits (c : Collab) (_ctx : Context) : Outcome :=
  match c.eniLimits [] with
  | .error e => ⟨some e, [Call.eniLimits (some e)], none⟩
  | .ok _ => ⟨none, [Call.eniLimits none], none⟩

/-- The action `actionMaxPods`. -/
def actionMaxPods (c : Collab) (ctx : Context) : Outcome :=
  match c.eniLimits [] with
  | .error e => ⟨some e, [Call.eniLimits (some e)], none⟩
  | .ok limit =>
    let specifiedMax := ctx.max
    let max := wrapInt64 (wrapInt64 (limit.adapters - 1) * limit.ipv4)
    let max := if specifiedMax > 0 ∧ specifiedMax < max then specifiedMax else max
    ⟨none, [Call.eniLimits none], some max⟩

/-- The action `actionAddr`. -/
def actionAddr (c : Collab) (_ctx : Context) : Outcome :=
  match c.getIPs [] with
  | .error e => ⟨some e, [Call.getIPs (some e)], none⟩
  | .ok _ => ⟨none, [Call.getIPs none], none⟩

/-- The action `actionEniIf`. -/
def actionEniIf (c : Collab) (_ctx : Context) : Outcome :=
  match c.getInterfaces [] with
  | .error e => ⟨some e, [Call.getInterfaces (some e)], none⟩
  | .ok _ => ⟨none, [Call.getInterfaces none], none⟩

/-- The `for _, iface := range interfaces` loop of `actionVpcCidr`: the error of
`DescribeVPCCIDRs` is assigned to `_`. -/
def vpcCidrLoop (c : Collab) : List Interface → List Call → List Call
  | [], log => log
  | iface :: rest, log =>
    vpcCidrLoop c rest (log ++ [Call.describeVPCCIDRs iface.vpcID (c.describeVPCCIDRs log iface.vpcID)])

/-- The action `actionVpcCidr`. -/
def actionVpcCidr (c : Collab) (_ctx : Context) : Outcome :=
  match c.getInterfaces [] with
  | .error e => ⟨some e, [Call.getInterfaces (some e)], none⟩
  | .ok interfaces => ⟨none, vpcCidrLoop c interfaces [Call.getInterfaces none], none⟩

/-- The `for _, iface := range interfaces` loop of `actionVpcPeerCidr`: the error
of `DescribeVPCPeerCIDRs` is assigned to `_`. -/
def vpcPeerCidrLoop (c : Collab) : List Interface → List Call → List Call
  | [], log => log
  | iface :: rest, log =>
    vpcPeerCidrLoop c rest
      (log ++ [Call.describeVPCPeerCIDRs iface.vpcID (c.describeVPCPeerCIDRs log iface.vpcID)])

/-- The action `actionVpcPeerCidr`. -/
def actionVpcPeerCidr (c : Collab) (_ctx : Context) : Outcome :=
  match c.getInterfaces [] with
  | .error e => ⟨some e, [Call.getInterfaces (some e)], none⟩
  | .ok interfaces => ⟨none, vpcPeerCidrLoop c interfaces [Call.getInterfaces none], none⟩

/-- The action `actionSubnets`. -/
def actionSubnets (c : Collab) (_ctx : Context) : Outcome :=
  match c.getSubnetsForInstance [] with
  | some e => ⟨some e, [Call.getSubnetsForInstance (some e)], none⟩
  | none => ⟨none, [Call.getSubnetsForInstance none], none⟩

/-- The action `actionRegistryList`. -/
def actionRegistryList (c : Collab) (_ctx : Context) : Outcome :=
  LockfileRun c <|
    match c.registryList [] with
    | some e => ⟨some e, [Call.registryList (some e)], none⟩
    | none => ⟨none, [Call.registryList none], none⟩

/-- The inner loop of `actionRegistryGc`: whether some address of the snapshot
`assigned` is `Equal` to the candidate `ip`. -/
def isAssigned (c : Collab) (assigned : List BoundIP) (ip : IP) : Bool :=
  assigned.any (fun assignedIP => c.ipEqual assignedIP.ip ip)

/-- The `OUTER` loop of `actionRegistryGc` over the candidates, with `maxReap`
the remaining-reap counter and `log` the calls made so far. The result of
`ForgetIP` is dropped. -/
def gcLoop (c : Collab) (assigned : List BoundIP) : List IP → Int → List Call → Outcome
  | [], _, log => ⟨none, log, none⟩
  | ip :: rest, maxReap, log =>
    if isAssigned c assigned ip then
      gcLoop c assigned rest maxReap (log ++ [Call.forgetIP ip (c.forgetIP log ip)])
    else
      match c.deallocateIP log ip with
      | none =>
        let log1 := log ++ [Call.deallocateIP ip none]
        let log2 := log1 ++ [Call.forgetIP ip (c.forgetIP log1 ip)]
        let maxReap := wrapInt64 (maxReap - 1)
        if maxReap = 0 then ⟨none, log2, none⟩ else gcLoop c assigned rest maxReap log2
      | some e =>
        let log1 := log ++ [Call.deallocateIP ip (some e)]
        if maxReap = 0 then ⟨none, log1, none⟩ else gcLoop c assigned rest maxReap log1

/-- The cutoff `time.Now().Add(freeAfter)` of `actionRegistryGc`, after the
jitter and the inversion of `freeAfter`. -/
def gcCutoff (c : Collab) (freeAfter : Int) : Int :=
  c.now + wrapInt64 (c.jitter freeAfter * -1)

/-- The action `actionRegistryGc`. -/
def actionRegistryGc (c : Collab) (ctx : Context) : Outcome :=
  LockfileRun c <|
    let maxReap := ctx.maxReap
    let freeAfter := ctx.freeAfter
    if freeAfter ≤ 0 then ⟨some (goStr "invalid duration"), [], none⟩
    else
      let cutoff := gcCutoff c freeAfter
      match c.trackedBefore [] cutoff with
      | .error e => ⟨some e, [Call.trackedBefore cutoff (some e)], none⟩
      | .ok ips =>
        match c.getIPs [Call.trackedBefore cutoff none] with
        | .error e => ⟨some e, [Call.trackedBefore cutoff none, Call.getIPs (some e)], none⟩
        | .ok assigned =>
          gcLoop c assigned ips maxReap [Call.trackedBefore cutoff none, Call.getIPs none]

/-- The commands of the table `app.Commands` in `main`. -/
inductive Command where
  | newInterface
  | removeInterface
  | deallocate
  | allocateFirstAvailable
  | freeIps
  | eniif
  | addr
  | subnets
  | limits
  | maxpods
  | bugs
  | vpccidr
  | vpcpeercidr
  | registryList
  | registryGc
deriving DecidableEq

/-- The `Action` of each command in `app.Commands`. -/
def Command.action : Command → Collab → Context → Outcome
  | .newInterface => actionNewInterface
  | .removeInterface => actionRemoveInterface
  | .deallocate => actionDeallocate
  | .allocateFirstAvailable => actionAllocate
  | .freeIps => actionFreeIps
  | .eniif => actionEniIf
  | .addr => actionAddr
  | .subnets => actionSubnets
  | .limits => actionLimits
  | .maxpods => actionMaxPods
  | .bugs => actionBugs
  | .vpccidr => actionVpcCidr
  | .vpcpeercidr => actionVpcPeerCidr
  | .registryList => actionRegistryList
  | .registryGc => actionRegistryGc

/-! ## Concrete collaborators, for evaluating the actions -/

/-- The value of a decimal digit. -/
def digitVal (b : UInt8) : Nat := b.toNat - 48

/-- One field of a dotted-decimal address: one to three decimal digits, no
leading zero before another digit, at most 255. -/
def parseOctet (s : GoString) : Option UInt8 :=
  if s.length = 0 ∨ 3 < s.length then none
  else if ¬ s.all (fun b => decide (48 ≤ b.toNat ∧ b.toNat ≤ 57)) then none
  else if 1 < s.length ∧ s.head? = some 48 then none
  else
    let n := s.foldl (fun a b => 10 * a + digitVal b) 0
    if n ≤ 255 then some (UInt8.ofNat n) else none

/-- The prefix of an IPv4 address in its 16-byte form. -/
def v4InV6Prefix : IP := [0, 0, 0, 0, 0, 0, 0, 0, 0, 0, 0xff, 0xff]

/-- A stand-in for `net.ParseIP` on text without `:`: four dotted decimal fields
give the 16-byte form of the IPv4 address, anything else gives nil. -/
def parseDottedIPv4 (s : GoString) : Option IP :=
  match (stringsSplit 46 s).map parseOctet with
  | [some a, some b, some c, some d] => some (v4InV6Prefix ++ [a, b, c, d])
  | _ => none

/-- The method `Equal` of `net.IP`: equal byte slices, or an IPv4 address in
4-byte form and the same address in 16-byte form. -/
def ipEqualBytes (ip x : IP) : Bool :=
  if ip.length = x.length then decide (ip = x)
  else if ip.length = 4 ∧ x.length = 16 then
    decide (x.take 12 = v4InV6Prefix) && decide (ip = x.drop 12)
  else if ip.length = 16 ∧ x.length = 4 then
    decide (ip.take 12 = v4InV6Prefix) && decide (ip.drop 12 = x)
  else false

/-- Collaborators that never fail and hold no data: the lock is free, the
registry, the interface list and the live snapshot are empty. -/
def quietCollab : Collab where
  lockfile := none
  parseIP := parseDottedIPv4
  ipEqual := ipEqualBytes
  jitter := fun d => d
  now := 1700000000000000000
  newInterface := fun _ _ _ _ => none
  removeInterface := fun _ _ => none
  deallocateIP := fun _ _ => none
  allocateIPsFirstAvailableAtIndex := fun _ _ _ => none
  findFreeIPsAtIndex := fun _ _ _ => none
  eniLimits := fun _ => .ok ⟨4, 15, 15⟩
  getInterfaces := fun _ => .ok []
  describeVPCCIDRs := fun _ _ => none
  describeVPCPeerCIDRs := fun _ _ => none
  getSubnetsForInstance := fun _ => none
  getIPs := fun _ => .ok []
  registryList := fun _ => none
  trackedBefore := fun _ _ => .ok []
  forgetIP := fun _ _ => none

/-- The address `10.0.1.5` as `net.ParseIP` returns it. -/
def ip_10_0_1_5 : IP := v4InV6Prefix ++ [10, 0, 1, 5]

/-- The address `10.0.1.6` as `net.ParseIP` returns it. -/
def ip_10_0_1_6 : IP := v4InV6Prefix ++ [10, 0, 1, 6]

/-- The address `10.0.1.7` as `net.ParseIP` returns it. -/
def ip_10_0_1_7 : IP := v4InV6Prefix ++ [10, 0, 1, 7]

/-- The registry holds `10.0.1.5`, tracked before the cutoff, and the kernel has
the same address bound to `eth1`. -/
def reusedCollab : Collab :=
  { quietCollab with
    trackedBefore := fun _ _ => .ok [ip_10_0_1_5]
    getIPs := fun _ => .ok [⟨goStr "eth1", ip_10_0_1_5⟩] }

/-- The registry holds `10.0.1.5`, `10.0.1.6` and `10.0.1.7`, all tracked before
the cutoff; none of them is bound, and every deallocation succeeds. -/
def idleCollab : Collab :=
  { quietCollab with trackedBefore := fun _ _ => .ok [ip_10_0_1_5, ip_10_0_1_6, ip_10_0_1_7] }

/-- As `idleCollab`, with every `DeallocateIP` failing. -/
def failingCollab : Collab :=
  { idleCollab with deallocateIP := fun _ _ => some (goStr "deallocation refused") }

/-- As `quietCollab`, with `DeallocateIP` failing on `10.0.1.5` alone. -/
def refusingCollab : Collab :=
  { quietCollab with
    deallocateIP := fun _ ip =>
      if ip = ip_10_0_1_5 then some (goStr "deallocation refused") else none }

/-- As `idleCollab`, with `DeallocateIP` failing on `10.0.1.5` alone. -/
def refusingIdleCollab : Collab :=
  { idleCollab with
    deallocateIP := fun _ ip =>
      if ip = ip_10_0_1_5 then some (goStr "deallocation refused") else none }

/-- One interface in the VPC `vpc-1`, and both CIDR lookups failing. -/
def vpcFailingCollab : Collab :=
  { quietCollab with
    getInterfaces := fun _ => .ok [⟨goStr "eni-1", goStr "vpc-1"⟩]
    describeVPCCIDRs := fun _ _ => some (goStr "describe failed")
    describeVPCPeerCIDRs := fun _ _ => some (goStr "describe failed") }

/-- The flags `--free-after=10m` (in nanoseconds) and `--max-reap=maxReap`. -/
def gcContext (maxReap : Int) : Context :=
  { freeAfter := 600000000000, maxReap := maxReap }

/-! ## Vocabulary of the statements -/

/-- The key and the value of a piece `k=v` of a filter: `kv[0]` and `kv[1]` of
its split on `=` (empty when there is no such part). -/
def kvOf (t : GoString) : GoString × GoString :=
  ((stringsSplit equals t).getD 0 [], (stringsSplit equals t).getD 1 [])

/-- A piece of a filter is malformed: it does not split on `=` into exactly two
parts, or its key is empty, or its value is empty. -/
def badPiece (t : GoString) : Prop :=
  (stringsSplit equals t).length ≠ 2 ∨ (kvOf t).1 = [] ∨ (kvOf t).2 = []

/-- What the `OUTER` loop of `actionRegistryGc` may do for one candidate `ip`, as
the calls `seg` it makes: a candidate `Equal` to an address of the snapshot is
only forgotten; any other candidate is deallocated, and forgotten when the
deallocation succeeded. -/
def isGcStep (c : Collab) (assigned : List BoundIP) (ip : IP) (seg : List Call) : Prop :=
  (isAssigned c assigned ip = true ∧ ∃ e, seg = [Call.forgetIP ip e]) ∨
  (isAssigned c assigned ip = false ∧
    ((∃ e, seg = [Call.deallocateIP ip (some e)]) ∨
     (∃ e, seg = [Call.deallocateIP ip none, Call.forgetIP ip e])))

/-- A call is a successful `DeallocateIP`. -/
def Call.isReclaim : Call → Bool
  | .deallocateIP _ none => true
  | _ => false

/-- The number of successful reclamations among the calls: the calls to
`DeallocateIP` that returned no error. -/
def reclaimed (calls : List Call) : Nat := calls.countP Call.isReclaim

/-- The calls made for one candidate are those of a successful reclamation:
`DeallocateIP` without error, then `ForgetIP`. -/
def isReclaimSeg (seg : List Call) : Prop :=
  ∃ ip e, seg = [Call.deallocateIP ip none, Call.forgetIP ip e]

/-- The value of the `int64` expression `(limit.Adapters - 1) * limit.IPv4`. -/
def rawMaxPods (limit : ENILimit) : Int :=
  wrapInt64 (wrapInt64 (limit.adapters - 1) * limit.ipv4)

/-- The step of `actionDeallocate` for an argument `a` that passes both checks
and whose `DeallocateIP` succeeds: the call `call`. -/
def isDeallocStep (c : Collab) (a : GoString) (call : Call) : Prop :=
  6 ≤ a.length ∧ ∃ ip, c.parseIP a = some ip ∧ call = Call.deallocateIP ip none

/-- A run of the loop of `actionDeallocate` over `args`, started with the calls
`log`, that ends in `o`. The arguments `pre` before the stopping point are each
deallocated with success, by `calls`. Then either no argument is left and the
result is nil; or the next argument is shorter than 6 bytes or does not parse,
no further call is made and an error is returned; or the next argument parses,
its `DeallocateIP` fails and that error is returned. Nothing is called for the
arguments after the stopping point. -/
def DeallocateRun (c : Collab) (log : List Call) (args : List GoString) (o : Outcome) : Prop :=
  ∃ pre post calls, args = pre ++ post ∧ List.Forall₂ (isDeallocStep c) pre calls ∧
    ((post = [] ∧ o.calls = log ++ calls ∧ o.err = none) ∨
     (∃ a rest, post = a :: rest ∧ (a.length < 6 ∨ c.parseIP a = none) ∧
        o.calls = log ++ calls ∧ o.err ≠ none) ∨
     (∃ a rest ip e, post = a :: rest ∧ 6 ≤ a.length ∧ c.parseIP a = some ip ∧
        o.calls = log ++ calls ++ [Call.deallocateIP ip (some e)] ∧ o.err = some e))

/-- The calls whose error an action drops: `DescribeVPCCIDRs` in `vpccidr` and
`DescribeVPCPeerCIDRs` in `vpcpeercidr` (assigned to `_`), and in `registry-gc`
`ForgetIP` (result unused) and `DeallocateIP` (reported on stderr, the run goes
on). -/
def errorDropped : Command → Call → Bool
  | .vpccidr, .describeVPCCIDRs _ _ => true
  | .vpcpeercidr, .describeVPCPeerCIDRs _ _ => true
  | .registryGc, .deallocateIP _ _ => true
  | .registryGc, .forgetIP _ _ => true
  | _, _ => false

/-! ## filterBuild: lemmas -/

theorem GoMap.lookup_filter_ne (m : GoMap) (k k' : GoString) (h : k' ≠ k) :
    GoMap.lookup (m.filter (fun p => decide (p.1 ≠ k))) k' = GoMap.lookup m k' := by
  induction m with
  | nil => rfl
  | cons p rest ih =>
    obtain ⟨a, b⟩ := p
    by_cases hak : a = k
    · subst hak
      simpa [List.filter, GoMap.lookup, h] using ih
    · simp only [ne_eq, decide_not] at ih
      simp [List.filter, GoMap.lookup, hak, ih]

theorem GoMap.lookup_set (m : GoMap) (k v k' : GoString) :
    GoMap.lookup (m.set k v) k' = if k' = k then some v else GoMap.lookup m k' := by
  unfold GoMap.set
  by_cases h : k' = k
  · simp [GoMap.lookup, h]
  · simp only [GoMap.lookup, h, if_false]
    exact GoMap.lookup_filter_ne m k k' h

theorem GoMap.mem_keys_iff (m : GoMap) (k : GoString) :
    k ∈ m.keys ↔ ∃ v, GoMap.lookup m k = some v := by
  induction m with
  | nil => simp [GoMap.keys, GoMap.lookup]
  | cons p rest ih =>
    obtain ⟨a, b⟩ := p
    by_cases h : k = a
    · subst h
      simp [GoMap.keys, GoMap.lookup]
    · have ih' : k ∈ List.map Prod.fst rest ↔ ∃ v, GoMap.lookup rest k = some v := ih
      simp [GoMap.keys, GoMap.lookup, h, ih']

theorem kvOf_of_split {t k v : GoString} (h : stringsSplit equals t = [k, v]) :
    kvOf t = (k, v) := by
  simp [kvOf, h]

theorem badPiece_iff (t : GoString) :
    badPiece t ↔ ∀ k v, stringsSplit equals t = [k, v] → k = [] ∨ v = [] := by
  unfold badPiece kvOf
  constructor
  · intro h k v hs
    rw [hs] at h
    simpa using h
  · intro h
    by_cases hl : (stringsSplit equals t).length = 2
    · right
      match hs : stringsSplit equals t, hl with
      | [k, v], _ => simpa using h k v hs
    · exact Or.inl hl

theorem filterBuildLoop_error_iff (ts : List GoString) (ret : GoMap) :
    (∃ e, filterBuildLoop ts ret = .error e) ↔ ∃ t ∈ ts, badPiece t := by
  induction ts generalizing ret with
  | nil => simp [filterBuildLoop]
  | cons t ts ih =>
    by_cases hb : badPiece t
    · constructor
      · intro _
        exact ⟨t, List.mem_cons_self _ _, hb⟩
      · intro _
        rw [badPiece_iff] at hb
        unfold filterBuildLoop
        split
        · next k v hs =>
          have := hb k v hs
          simp [this]
        · exact ⟨_, rfl⟩
    · have hb' := hb
      rw [badPiece_iff] at hb
      push_neg at hb
      obtain ⟨k, v, hs, hk, hv⟩ := hb
      have hz : ¬ (k.length ≤ 0 ∨ v.length ≤ 0) := by
        simp [List.length_eq_zero, hk, hv]
      have hstep : filterBuildLoop (t :: ts) ret = filterBuildLoop ts (ret.set k v) := by
        rw [filterBuildLoop, hs]
        simp only [hz, if_false]
      rw [hstep, ih]
      constructor
      · rintro ⟨u, hu, hbu⟩
        exact ⟨u, List.mem_cons_of_mem _ hu, hbu⟩
      · rintro ⟨u, hu, hbu⟩
        rcases List.mem_cons.mp hu with rfl | hu
        · exact absurd hbu hb'
        · exact ⟨u, hu, hbu⟩

theorem filterBuildLoop_cons_ok {t : GoString} {ts : List GoString} {ret m : GoMap}
    (h : filterBuildLoop (t :: ts) ret = .ok m) :
    ∃ k v, stringsSplit equals t = [k, v] ∧ filterBuildLoop ts (ret.set k v) = .ok m := by
  unfold filterBuildLoop at h
  split at h
  · next k v hs =>
    split at h
    · cases h
    · exact ⟨k, v, hs, h⟩
  · cases h

theorem filterBuildLoop_lookup (ts : List GoString) (ret m : GoMap)
    (h : filterBuildLoop ts ret = .ok m) (k v : GoString) :
    GoMap.lookup m k = some v ↔
      (∃ pre t post, ts = pre ++ t :: post ∧ kvOf t = (k, v) ∧ ∀ u ∈ post, (kvOf u).1 ≠ k) ∨
      ((∀ u ∈ ts, (kvOf u).1 ≠ k) ∧ GoMap.lookup ret k = some v) := by
  induction ts generalizing ret with
  | nil =>
    simp only [filterBuildLoop, Except.ok.injEq] at h
    subst h
    simp
  | cons t ts ih =>
    obtain ⟨k0, v0, hs, hrest⟩ := filterBuildLoop_cons_ok h
    have hkv : kvOf t = (k0, v0) := kvOf_of_split hs
    rw [ih _ hrest, GoMap.lookup_set]
    constructor
    · rintro (⟨pre, t', post, hts, ht', hpost⟩ | ⟨hall, hl⟩)
      · exact Or.inl ⟨t :: pre, t', post, by simp [hts], ht', hpost⟩
      · by_cases hk : k = k0
        · simp only [hk, if_true, Option.some.injEq] at hl
          subst hk
          subst hl
          exact Or.inl ⟨[], t, ts, rfl, hkv, hall⟩
        · simp only [hk, if_false] at hl
          refine Or.inr ⟨?_, hl⟩
          intro u hu
          rcases List.mem_cons.mp hu with rfl | hu
          · rw [hkv]
            exact fun h => hk h.symm
          · exact hall u hu
    · rintro (⟨pre, t', post, hts, ht', hpost⟩ | ⟨hall, hl⟩)
      · cases pre with
        | nil =>
          simp only [List.nil_append, List.cons.injEq] at hts
          obtain ⟨rfl, rfl⟩ := hts
          rw [hkv] at ht'
          simp only [Prod.mk.injEq] at ht'
          obtain ⟨rfl, rfl⟩ := ht'
          exact Or.inr ⟨hpost, by simp⟩
        | cons p pre =>
          simp only [List.cons_append, List.cons.injEq] at hts
          obtain ⟨rfl, rfl⟩ := hts
          exact Or.inl ⟨pre, t', post, rfl, ht', hpost⟩
      · have hk : k ≠ k0 := by
          have := hall t (List.mem_cons_self _ _)
          rw [hkv] at this
          exact fun h => this h.symm
        refine Or.inr ⟨fun u hu => hall u (List.mem_cons_of_mem _ hu), ?_⟩
        simp only [hk, if_false]
        exact hl

theorem stringsSplit_ne_nil (sep : UInt8) (s : GoString) : stringsSplit sep s ≠ [] := by
  induction s with
  | nil => simp [stringsSplit]
  | cons b rest ih =>
    unfold stringsSplit
    split
    · simp
    · split <;> simp

theorem stringsSplit_no_sep (sep : UInt8) (s : GoString) :
    ∀ p ∈ stringsSplit sep s, sep ∉ p := by
  induction s with
  | nil => simp [stringsSplit]
  | cons b rest ih =>
    unfold stringsSplit
    split
    · intro p hp
      rcases List.mem_cons.mp hp with rfl | hp
      · simp
      · exact ih p hp
    · next hb =>
      split
      · intro p hp
        simp only [List.mem_singleton] at hp
        subst hp
        simpa using fun h => hb h.symm
      · next q qs hq =>
        intro p hp
        rcases List.mem_cons.mp hp with rfl | hp
        · have := ih q (by simp [hq])
          simp only [List.mem_cons, not_or]
          exact ⟨fun h => hb h.symm, this⟩
        · exact ih p (by simp [hq, hp])

theorem stringsSplit_intercalate (sep : UInt8) (s : GoString) :
    [sep].intercalate (stringsSplit sep s) = s := by
  induction s with
  | nil => simp [stringsSplit, List.intercalate]
  | cons b rest ih =>
    unfold stringsSplit
    split
    · next hb =>
      cases hr : stringsSplit sep rest with
      | nil => exact absurd hr (stringsSplit_ne_nil sep rest)
      | cons q qs =>
        rw [hr] at ih
        simp only [List.intercalate, List.intersperse, List.flatten] at ih ⊢
        cases qs with
        | nil => simp [List.intersperse, hb] at ih ⊢; exact ih
        | cons q2 qs2 => simp [List.intersperse, hb] at ih ⊢; exact ih
    · split
      · next hq => simp [hq, List.intercalate] at ih ⊢; exact ih
      · next q qs hq =>
        rw [hq] at ih
        cases qs with
        | nil => simp [List.intercalate, List.intersperse] at ih ⊢; exact ih
        | cons q2 qs2 => simp [List.intercalate, List.intersperse] at ih ⊢; exact ih

/-! ## filterBuild: the claim -/

/-- C6: `filterBuild` parses the `k=v,k=v` filter. The empty input gives the nil
map and no error; the result is an error exactly when the input is non-empty and
some comma-separated piece is malformed (`badPiece`); otherwise the result is a
map whose keys are exactly the keys of the pieces and which maps each key to the
value of the last piece carrying that key. -/
theorem filterBuild_spec (input : GoString) :
    (input = [] → filterBuild input = .ok none) ∧
    ((∃ e, filterBuild input = .error e) ↔
      (input ≠ [] ∧ ∃ t ∈ stringsSplit comma input, badPiece t)) ∧
    (input ≠ [] → (∀ t ∈ stringsSplit comma input, ¬ badPiece t) →
      ∃ m, filterBuild input = .ok (some m) ∧
        (∀ k, k ∈ m.keys ↔ ∃ t ∈ stringsSplit comma input, (kvOf t).1 = k) ∧
        (∀ k v, GoMap.lookup m k = some v ↔
          ∃ pre t post, stringsSplit comma input = pre ++ t :: post ∧ kvOf t = (k, v) ∧
            ∀ u ∈ post, (kvOf u).1 ≠ k)) := by
  refine ⟨fun h => by simp [filterBuild, h], ?_, ?_⟩
  · by_cases hi : input = []
    · simp [filterBuild, hi]
    · have hloop := filterBuildLoop_error_iff (stringsSplit comma input) []
      simp only [filterBuild, hi, if_false, ne_eq, not_false_eq_true, true_and]
      rw [← hloop]
      cases filterBuildLoop (stringsSplit comma input) [] <;> simp
  · intro hi hgood
    have hne : ¬ ∃ e, filterBuildLoop (stringsSplit comma input) [] = .error e := by
      rw [filterBuildLoop_error_iff]
      rintro ⟨t, ht, hb⟩
      exact hgood t ht hb
    cases hm : filterBuildLoop (stringsSplit comma input) [] with
    | error e => exact absurd ⟨e, hm⟩ hne
    | ok m =>
      have hl := filterBuildLoop_lookup _ _ _ hm
      have hl' : ∀ k v, GoMap.lookup m k = some v ↔
          ∃ pre t post, stringsSplit comma input = pre ++ t :: post ∧ kvOf t = (k, v) ∧
            ∀ u ∈ post, (kvOf u).1 ≠ k := by
        intro k v
        rw [hl k v]
        simp [GoMap.lookup]
      refine ⟨m, by simp [filterBuild, hi, hm], ?_, hl'⟩
      intro k
      rw [GoMap.mem_keys_iff]
      constructor
      · rintro ⟨v, hv⟩
        obtain ⟨pre, t, post, hts, ht, _⟩ := (hl' k v).mp hv
        exact ⟨t, by simp [hts], by simp [ht]⟩
      · rintro ⟨t, ht, hk⟩
        by_contra hnone
        push_neg at hnone
        -- the last piece carrying `k` gives a value
        have key : ∀ (ts : List GoString), (∃ t ∈ ts, (kvOf t).1 = k) →
            ∃ pre t post, ts = pre ++ t :: post ∧ (kvOf t).1 = k ∧
              ∀ u ∈ post, (kvOf u).1 ≠ k := by
          intro ts
          induction ts with
          | nil => simp
          | cons a ts ih =>
            rintro ⟨u, hu, huk⟩
            by_cases hex : ∃ t ∈ ts, (kvOf t).1 = k
            · obtain ⟨pre, t', post, h1, h2, h3⟩ := ih hex
              exact ⟨a :: pre, t', post, by simp [h1], h2, h3⟩
            · push_neg at hex
              rcases List.mem_cons.mp hu with rfl | hu
              · exact ⟨[], u, ts, rfl, huk, hex⟩
              · exact absurd huk (hex u hu)
        obtain ⟨pre, t', post, h1, h2, h3⟩ := key _ ⟨t, ht, hk⟩
        exact hnone (kvOf t').2 ((hl' k _).mpr ⟨pre, t', post, h1, by rw [← h2], h3⟩)

/-! ## actionMaxPods -/

theorem wrapInt64_of_fits (n : Int) (h1 : minInt64 ≤ n) (h2 : n ≤ maxInt64) :
    wrapInt64 n = n := by
  unfold wrapInt64
  unfold minInt64 at h1
  unfold maxInt64 at h2
  omega

/-- C5: with the limits `limit` available, `actionMaxPods` returns no error and
prints `raw`, the value of `(Adapters - 1) * IPv4`, unless `0 < m < raw` for the
`--max` value `m`, in which case it prints `m`. So the printed value never
exceeds a positive `m`, it is `raw` for `m ≤ 0` (the flag absent is `0`), and
`raw` is the exact product whenever the subtraction and the product fit in an
`int64`. -/
theorem actionMaxPods_spec (c : Collab) (ctx : Context) (limit : ENILimit)
    (h : c.eniLimits [] = .ok limit) :
    (actionMaxPods c ctx).err = none ∧
    (actionMaxPods c ctx).printed =
      some (if 0 < ctx.max ∧ ctx.max < rawMaxPods limit then ctx.max else rawMaxPods limit) ∧
    (0 < ctx.max → ∀ p, (actionMaxPods c ctx).printed = some p → p ≤ ctx.max) ∧
    (ctx.max ≤ 0 → (actionMaxPods c ctx).printed = some (rawMaxPods limit)) ∧
    (minInt64 ≤ limit.adapters - 1 → limit.adapters - 1 ≤ maxInt64 →
      minInt64 ≤ (limit.adapters - 1) * limit.ipv4 →
      (limit.adapters - 1) * limit.ipv4 ≤ maxInt64 →
      rawMaxPods limit = (limit.adapters - 1) * limit.ipv4) := by
  have hp : (actionMaxPods c ctx).printed =
      some (if 0 < ctx.max ∧ ctx.max < rawMaxPods limit then ctx.max else rawMaxPods limit) := by
    simp [actionMaxPods, h, rawMaxPods]
  refine ⟨by simp [actionMaxPods, h], hp, ?_, ?_, ?_⟩
  · intro hpos p hpr
    rw [hp] at hpr
    simp only [Option.some.injEq] at hpr
    subst hpr
    split
    · exact le_refl _
    · next hn =>
      push_neg at hn
      exact hn hpos
  · intro hle
    rw [hp]
    have : ¬ (0 < ctx.max ∧ ctx.max < rawMaxPods limit) := fun hh => by omega
    simp [this]
  · intro h1 h2 h3 h4
    unfold rawMaxPods
    rw [wrapInt64_of_fits _ h1 h2, wrapInt64_of_fits _ h3 h4]

/-- C5 at the limits `{Adapters: 4, IPv4: 15}`: `maxpods --max=20` prints `20`
and `maxpods` without `--max` prints `45`. -/
theorem actionMaxPods_spec_witness :
    quietCollab.eniLimits [] = .ok ⟨4, 15, 15⟩ ∧
    (actionMaxPods quietCollab { max := 20 }).printed = some 20 ∧
    (actionMaxPods quietCollab {}).printed = some 45 :=
  ⟨rfl,
    (actionMaxPods_spec quietCollab { max := 20 } ⟨4, 15, 15⟩ rfl).2.1.trans (by decide),
    (actionMaxPods_spec quietCollab {} ⟨4, 15, 15⟩ rfl).2.1.trans (by decide)⟩

/-! ## actionRegistryGc: the loop -/

theorem reclaimed_append (xs ys : List Call) :
    reclaimed (xs ++ ys) = reclaimed xs + reclaimed ys := by
  simp [reclaimed, List.countP_append]

theorem wrapInt64_pred_pos (m : Int) (h1 : 0 < m) (h2 : m ≤ maxInt64) :
    wrapInt64 (m - 1) = m - 1 := by
  unfold wrapInt64
  unfold maxInt64 at h2
  omega

theorem wrapInt64_pred_neg (m : Int) (h1 : m < 0) (h2 : minInt64 ≤ m - 1) :
    wrapInt64 (m - 1) = m - 1 := by
  unfold wrapInt64
  unfold minInt64 at h2
  omega

/-- The trace of the `OUTER` loop: it returns nil, and the calls it adds are, for
the first `segs.length` candidates in order, one step each. With a positive
counter it makes at most `maxReap` reclamations, it leaves candidates out only
after the `maxReap`-th reclamation, and that reclamation is then its last step.
With a negative counter that cannot wrap around it takes every candidate. -/
theorem gcLoop_trace (c : Collab) (assigned : List BoundIP) (ips : List IP) (maxReap : Int)
    (log : List Call) :
    ∃ segs : List (List Call),
      (gcLoop c assigned ips maxReap log).calls = log ++ segs.flatten ∧
      (gcLoop c assigned ips maxReap log).err = none ∧
      segs.length ≤ ips.length ∧
      List.Forall₂ (isGcStep c assigned) (ips.take segs.length) segs ∧
      (0 < maxReap → maxReap ≤ maxInt64 →
        (reclaimed segs.flatten : Int) ≤ maxReap ∧
        (segs.length < ips.length → (reclaimed segs.flatten : Int) = maxReap) ∧
        ((reclaimed segs.flatten : Int) = maxReap →
          ∃ seg, segs.getLast? = some seg ∧ isReclaimSeg seg)) ∧
      (maxReap < 0 → minInt64 ≤ maxReap - ips.length → segs.length = ips.length) := by
  induction ips generalizing maxReap log with
  | nil =>
    refine ⟨[], by simp [gcLoop], by simp [gcLoop], by simp, by simp, ?_, by simp⟩
    intro h1 _
    refine ⟨by simpa [reclaimed] using h1.le, by simp, ?_⟩
    intro h
    simp [reclaimed] at h
    omega
  | cons ip rest ih =>
    by_cases hlive : isAssigned c assigned ip = true
    · -- a live candidate: forgotten, the counter is unchanged
      obtain ⟨segs, hcalls, herr, hlen, hsteps, hpos, hneg⟩ :=
        ih maxReap (log ++ [Call.forgetIP ip (c.forgetIP log ip)])
      have hstep : gcLoop c assigned (ip :: rest) maxReap log =
          gcLoop c assigned rest maxReap (log ++ [Call.forgetIP ip (c.forgetIP log ip)]) := by
        rw [gcLoop]
        simp [hlive]
      refine ⟨[Call.forgetIP ip (c.forgetIP log ip)] :: segs, ?_, ?_, ?_, ?_, ?_, ?_⟩
      · rw [hstep, hcalls]; simp
      · rw [hstep, herr]
      · simpa using hlen
      · simp only [List.length_cons, List.take_succ_cons]
        exact List.Forall₂.cons (Or.inl ⟨hlive, _, rfl⟩) hsteps
      · intro h1 h2
        obtain ⟨p1, p2, p3⟩ := hpos h1 h2
        have hr : reclaimed ([Call.forgetIP ip (c.forgetIP log ip)] :: segs).flatten =
            reclaimed segs.flatten := by
          simp [reclaimed, Call.isReclaim]
        rw [hr]
        refine ⟨p1, ?_, ?_⟩
        · intro hlt
          exact p2 (by simpa using hlt)
        · intro heq
          obtain ⟨seg, hs, hseg⟩ := p3 heq
          refine ⟨seg, ?_, hseg⟩
          cases segs with
          | nil => simp at hs
          | cons a tl => simpa [List.getLast?_cons_cons] using hs
      · intro h1 h2
        have := hneg h1 (by simp only [List.length_cons] at h2; push_cast at h2; omega)
        simp [this]
    · have hlive' : isAssigned c assigned ip = false := by simpa using hlive
      cases hd : c.deallocateIP log ip with
      | some e =>
        -- a failed deallocation: the counter is unchanged
        by_cases hz : maxReap = 0
        · refine ⟨[[Call.deallocateIP ip (some e)]], ?_, ?_, ?_, ?_, ?_, ?_⟩
          · rw [gcLoop]; simp [hlive', hd, hz]
          · rw [gcLoop]; simp [hlive', hd, hz]
          · simp
          · simp only [List.length_singleton, List.take_succ_cons, List.take_zero]
            exact List.Forall₂.cons (Or.inr ⟨hlive', Or.inl ⟨e, rfl⟩⟩) List.Forall₂.nil
          · intro h1; omega
          · intro h1; omega
        · obtain ⟨segs, hcalls, herr, hlen, hsteps, hpos, hneg⟩ :=
            ih maxReap (log ++ [Call.deallocateIP ip (some e)])
          have hstep : gcLoop c assigned (ip :: rest) maxReap log =
              gcLoop c assigned rest maxReap (log ++ [Call.deallocateIP ip (some e)]) := by
            rw [gcLoop]
            simp [hlive', hd, hz]
          refine ⟨[Call.deallocateIP ip (some e)] :: segs, ?_, ?_, ?_, ?_, ?_, ?_⟩
          · rw [hstep, hcalls]; simp
          · rw [hstep, herr]
          · simpa using hlen
          · simp only [List.length_cons, List.take_succ_cons]
            exact List.Forall₂.cons (Or.inr ⟨hlive', Or.inl ⟨e, rfl⟩⟩) hsteps
          · intro h1 h2
            obtain ⟨p1, p2, p3⟩ := hpos h1 h2
            have hr : reclaimed ([Call.deallocateIP ip (some e)] :: segs).flatten =
                reclaimed segs.flatten := by
              simp [reclaimed, Call.isReclaim]
            rw [hr]
            refine ⟨p1, ?_, ?_⟩
            · intro hlt
              exact p2 (by simpa using hlt)
            · intro heq
              obtain ⟨seg, hs, hseg⟩ := p3 heq
              refine ⟨seg, ?_, hseg⟩
              cases segs with
              | nil => simp at hs
              | cons a tl => simpa [List.getLast?_cons_cons] using hs
          · intro h1 h2
            have := hneg h1 (by simp only [List.length_cons] at h2; push_cast at h2; omega)
            simp [this]
      | none =>
        -- a reclamation: the counter goes down by one
        have hseg : isGcStep c assigned ip
            [Call.deallocateIP ip none,
              Call.forgetIP ip (c.forgetIP (log ++ [Call.deallocateIP ip none]) ip)] :=
          Or.inr ⟨hlive', Or.inr ⟨_, rfl⟩⟩
        by_cases hz : wrapInt64 (maxReap - 1) = 0
        · refine ⟨[[Call.deallocateIP ip none,
              Call.forgetIP ip (c.forgetIP (log ++ [Call.deallocateIP ip none]) ip)]],
            ?_, ?_, ?_, ?_, ?_, ?_⟩
          · rw [gcLoop]; simp [hlive', hd, hz]
          · rw [gcLoop]; simp [hlive', hd, hz]
          · simp
          · simp only [List.length_singleton, List.take_succ_cons, List.take_zero]
            exact List.Forall₂.cons hseg List.Forall₂.nil
          · intro h1 h2
            have h3 := wrapInt64_pred_pos maxReap h1 h2
            have h4 : maxReap = 1 := by omega
            have hr : reclaimed [[Call.deallocateIP ip none,
                Call.forgetIP ip (c.forgetIP (log ++ [Call.deallocateIP ip none]) ip)]].flatten
                = 1 := by
              simp [reclaimed, Call.isReclaim]
            rw [hr, h4]
            refine ⟨by simp, by simp, ?_⟩
            intro _
            exact ⟨_, rfl, _, _, rfl⟩
          · intro h1 h2
            have h3 := wrapInt64_pred_neg maxReap h1
              (by simp only [List.length_cons] at h2; push_cast at h2; omega)
            omega
        · obtain ⟨segs, hcalls, herr, hlen, hsteps, hpos, hneg⟩ :=
            ih (wrapInt64 (maxReap - 1))
              (log ++ [Call.deallocateIP ip none] ++
                [Call.forgetIP ip (c.forgetIP (log ++ [Call.deallocateIP ip none]) ip)])
          have hstep : gcLoop c assigned (ip :: rest) maxReap log =
              gcLoop c assigned rest (wrapInt64 (maxReap - 1))
                (log ++ [Call.deallocateIP ip none] ++
                  [Call.forgetIP ip (c.forgetIP (log ++ [Call.deallocateIP ip none]) ip)]) := by
            rw [gcLoop]
            simp [hlive', hd, hz]
          have hr : reclaimed ([Call.deallocateIP ip none,
              Call.forgetIP ip (c.forgetIP (log ++ [Call.deallocateIP ip none]) ip)]
                :: segs).flatten = reclaimed segs.flatten + 1 := by
            simp [reclaimed, Call.isReclaim, List.countP_cons]
          refine ⟨[Call.deallocateIP ip none,
              Call.forgetIP ip (c.forgetIP (log ++ [Call.deallocateIP ip none]) ip)] :: segs,
            ?_, ?_, ?_, ?_, ?_, ?_⟩
          · rw [hstep, hcalls]; simp
          · rw [hstep, herr]
          · simpa using hlen
          · simp only [List.length_cons, List.take_succ_cons]
            exact List.Forall₂.cons hseg hsteps
          · intro h1 h2
            have h3 := wrapInt64_pred_pos maxReap h1 h2
            rw [h3] at hz hpos
            obtain ⟨p1, p2, p3⟩ := hpos (by omega) (by omega)
            rw [hr]
            push_cast
            refine ⟨by omega, ?_, ?_⟩
            · intro hlt
              have := p2 (by simpa using hlt)
              omega
            · intro heq
              obtain ⟨seg, hs, hsg⟩ := p3 (by omega)
              refine ⟨seg, ?_, hsg⟩
              cases segs with
              | nil => simp at hs
              | cons a tl => simpa [List.getLast?_cons_cons] using hs
          · intro h1 h2
            have h2' : minInt64 ≤ maxReap - 1 - rest.length := by
              simp only [List.length_cons] at h2; push_cast at h2; omega
            have h3 := wrapInt64_pred_neg maxReap h1 (by omega)
            rw [h3] at hneg
            have := hneg (by omega) h2'
            simp [this]

theorem forall₂_take_zip {α β : Type} (R : α → β → Prop) (l : List α) (s : List β)
    (h : List.Forall₂ R (l.take s.length) s) :
    ∀ a b, (a, b) ∈ List.zip l s → R a b := by
  induction s generalizing l with
  | nil => simp
  | cons y ys ih =>
    cases l with
    | nil => simp
    | cons x xs =>
      simp only [List.length_cons, List.take_succ_cons, List.forall₂_cons] at h
      intro a b hab
      simp only [List.zip_cons_cons, List.mem_cons, Prod.mk.injEq] at hab
      rcases hab with ⟨rfl, rfl⟩ | hab
      · exact h.1
      · exact ih xs h.2 a b hab

theorem forall₂_mem_flatten {α β : Type} (R : α → List β → Prop) (l : List α)
    (s : List (List β)) (h : List.Forall₂ R l s) (b : β) (hb : b ∈ s.flatten) :
    ∃ a seg, a ∈ l ∧ R a seg ∧ b ∈ seg := by
  induction h with
  | nil => simp at hb
  | cons hR _ ih =>
    simp only [List.flatten_cons, List.mem_append] at hb
    rcases hb with hb | hb
    · exact ⟨_, _, List.mem_cons_self _ _, hR, hb⟩
    · obtain ⟨a, seg, ha, hr, hbs⟩ := ih hb
      exact ⟨a, seg, List.mem_cons_of_mem _ ha, hr, hbs⟩

theorem actionRegistryGc_eq_gcLoop (c : Collab) (ctx : Context) (ips : List IP)
    (assigned : List BoundIP) (hlock : c.lockfile = none) (hfree : 0 < ctx.freeAfter)
    (htb : c.trackedBefore [] (gcCutoff c ctx.freeAfter) = .ok ips)
    (hgi : c.getIPs [Call.trackedBefore (gcCutoff c ctx.freeAfter) none] = .ok assigned) :
    actionRegistryGc c ctx =
      gcLoop c assigned ips ctx.maxReap
        [Call.trackedBefore (gcCutoff c ctx.freeAfter) none, Call.getIPs none] := by
  have hnot : ¬ ctx.freeAfter ≤ 0 := by omega
  simp [actionRegistryGc, LockfileRun, hlock, hnot, htb, hgi]

/-! ## actionRegistryGc: the claims -/

/-- C1: in a run of `actionRegistryGc` that got the candidates `ips` from
`TrackedBefore` and the snapshot `assigned` from `GetIPs`, `DeallocateIP` is
never called on an address that is `Equal` to an address of the snapshot; the
calls of the loop are one step for each candidate it reaches, in order, and the
step of a candidate that is in the snapshot is the single call `ForgetIP`. -/
theorem actionRegistryGc_never_deallocates_live (c : Collab) (ctx : Context) (ips : List IP)
    (assigned : List BoundIP) (hlock : c.lockfile = none) (hfree : 0 < ctx.freeAfter)
    (htb : c.trackedBefore [] (gcCutoff c ctx.freeAfter) = .ok ips)
    (hgi : c.getIPs [Call.trackedBefore (gcCutoff c ctx.freeAfter) none] = .ok assigned) :
    (∀ ip e, Call.deallocateIP ip e ∈ (actionRegistryGc c ctx).calls →
      isAssigned c assigned ip = false) ∧
    ∃ segs : List (List Call),
      (actionRegistryGc c ctx).calls =
        [Call.trackedBefore (gcCutoff c ctx.freeAfter) none, Call.getIPs none] ++ segs.flatten ∧
      segs.length ≤ ips.length ∧
      List.Forall₂ (isGcStep c assigned) (ips.take segs.length) segs ∧
      ∀ ip seg, (ip, seg) ∈ List.zip ips segs → isAssigned c assigned ip = true →
        ∃ e, seg = [Call.forgetIP ip e] := by
  rw [actionRegistryGc_eq_gcLoop c ctx ips assigned hlock hfree htb hgi]
  obtain ⟨segs, hcalls, _, hlen, hsteps, _, _⟩ :=
    gcLoop_trace c assigned ips ctx.maxReap
      [Call.trackedBefore (gcCutoff c ctx.freeAfter) none, Call.getIPs none]
  constructor
  · intro ip e hmem
    rw [hcalls] at hmem
    simp only [List.mem_append, List.mem_cons, List.mem_singleton, List.not_mem_nil,
      or_false, reduceCtorEq, false_or] at hmem
    obtain ⟨a, seg, _, hstep, hin⟩ := forall₂_mem_flatten _ _ _ hsteps _ hmem
    rcases hstep with ⟨_, e', rfl⟩ | ⟨hfalse, ⟨e', rfl⟩ | ⟨e', rfl⟩⟩
    · simp at hin
    · simp only [List.mem_singleton, Call.deallocateIP.injEq] at hin
      rw [hin.1]; exact hfalse
    · simp only [List.mem_cons, Call.deallocateIP.injEq, reduceCtorEq, List.mem_singleton,
        List.not_mem_nil, or_false] at hin
      rw [hin.1]; exact hfalse
  · refine ⟨segs, hcalls, hlen, hsteps, ?_⟩
    intro ip seg hzip hlive
    rcases forall₂_take_zip _ _ _ hsteps ip seg hzip with ⟨_, e, rfl⟩ | ⟨hfalse, _⟩
    · exact ⟨e, rfl⟩
    · rw [hlive] at hfalse
      cases hfalse

/-- C1 where the registry holds `10.0.1.5` and the address is bound again: the
run forgets it and makes no call to `DeallocateIP`. -/
theorem actionRegistryGc_never_deallocates_live_witness :
    (actionRegistryGc reusedCollab (gcContext (-1))).calls =
      [Call.trackedBefore (gcCutoff reusedCollab 600000000000) none, Call.getIPs none,
        Call.forgetIP ip_10_0_1_5 none] ∧
    ∀ ip e, Call.deallocateIP ip e ∈ (actionRegistryGc reusedCollab (gcContext (-1))).calls →
      isAssigned reusedCollab [⟨goStr "eth1", ip_10_0_1_5⟩] ip = false :=
  ⟨by decide,
    (actionRegistryGc_never_deallocates_live reusedCollab (gcContext (-1)) [ip_10_0_1_5]
      [⟨goStr "eth1", ip_10_0_1_5⟩] rfl (by decide) rfl rfl).1⟩

theorem reclaimed_gc_calls (cutoff : Int) (rest : List Call) :
    reclaimed ([Call.trackedBefore cutoff none, Call.getIPs none] ++ rest) = reclaimed rest := by
  simp [reclaimed, Call.isReclaim, List.countP_cons]

/-- The quota of the `OUTER` loop for a counter `maxReap ≠ 0` that is a 64-bit
`int`: `q = maxReap % 2^64` is the number of decrements, with wraparound, that
take the counter to `0`. The loop makes at most `q` reclamations, at most one
for each step, it leaves candidates out only after the `q`-th reclamation, and
that reclamation is then its last step. -/
theorem gcLoop_quota (c : Collab) (assigned : List BoundIP) (ips : List IP) (maxReap : Int)
    (log : List Call) :
    ∃ segs : List (List Call),
      (gcLoop c assigned ips maxReap log).calls = log ++ segs.flatten ∧
      (gcLoop c assigned ips maxReap log).err = none ∧
      segs.length ≤ ips.length ∧
      List.Forall₂ (isGcStep c assigned) (ips.take segs.length) segs ∧
      reclaimed segs.flatten ≤ segs.length ∧
      (maxReap ≠ 0 → minInt64 ≤ maxReap → maxReap ≤ maxInt64 →
        (reclaimed segs.flatten : Int) ≤ maxReap % 18446744073709551616 ∧
        (segs.length < ips.length →
          (reclaimed segs.flatten : Int) = maxReap % 18446744073709551616) ∧
        ((reclaimed segs.flatten : Int) = maxReap % 18446744073709551616 →
          ∃ seg, segs.getLast? = some seg ∧ isReclaimSeg seg)) := by
  induction ips generalizing maxReap log with
  | nil =>
    refine ⟨[], by simp [gcLoop], by simp [gcLoop], by simp, by simp, by simp [reclaimed], ?_⟩
    intro h0 h1 h2
    unfold minInt64 at h1
    unfold maxInt64 at h2
    have hr : reclaimed ([] : List (List Call)).flatten = 0 := by simp [reclaimed]
    rw [hr]
    refine ⟨by push_cast; omega, by simp, ?_⟩
    intro h
    push_cast at h
    omega
  | cons ip rest ih =>
    -- a step that is no reclamation, followed by the rest of the run
    have hskip : ∀ (seg : List Call), reclaimed seg = 0 → isGcStep c assigned ip seg →
        gcLoop c assigned (ip :: rest) maxReap log = gcLoop c assigned rest maxReap (log ++ seg) →
        ∃ segs : List (List Call),
          (gcLoop c assigned (ip :: rest) maxReap log).calls = log ++ segs.flatten ∧
          (gcLoop c assigned (ip :: rest) maxReap log).err = none ∧
          segs.length ≤ (ip :: rest).length ∧
          List.Forall₂ (isGcStep c assigned) ((ip :: rest).take segs.length) segs ∧
          reclaimed segs.flatten ≤ segs.length ∧
          (maxReap ≠ 0 → minInt64 ≤ maxReap → maxReap ≤ maxInt64 →
            (reclaimed segs.flatten : Int) ≤ maxReap % 18446744073709551616 ∧
            (segs.length < (ip :: rest).length →
              (reclaimed segs.flatten : Int) = maxReap % 18446744073709551616) ∧
            ((reclaimed segs.flatten : Int) = maxReap % 18446744073709551616 →
              ∃ seg, segs.getLast? = some seg ∧ isReclaimSeg seg)) := by
      intro seg hseg0 hsegstep hstep
      obtain ⟨segs, hcalls, herr, hlen, hsteps, hone, hq⟩ := ih maxReap (log ++ seg)
      have hr : reclaimed (seg :: segs).flatten = reclaimed segs.flatten := by
        rw [List.flatten_cons, reclaimed_append, hseg0, Nat.zero_add]
      refine ⟨seg :: segs, ?_, ?_, ?_, ?_, ?_, ?_⟩
      · rw [hstep, hcalls]; simp
      · rw [hstep, herr]
      · simpa using hlen
      · simp only [List.length_cons, List.take_succ_cons]
        exact List.Forall₂.cons hsegstep hsteps
      · rw [hr, List.length_cons]; omega
      · intro h0 h1 h2
        obtain ⟨p1, p2, p3⟩ := hq h0 h1 h2
        rw [hr]
        refine ⟨p1, ?_, ?_⟩
        · intro hlt
          exact p2 (by simpa using hlt)
        · intro heq
          obtain ⟨sg, hs, hsg⟩ := p3 heq
          refine ⟨sg, ?_, hsg⟩
          cases segs with
          | nil => simp at hs
          | cons a tl => simpa [List.getLast?_cons_cons] using hs
    by_cases hlive : isAssigned c assigned ip = true
    · apply hskip [Call.forgetIP ip (c.forgetIP log ip)]
      · simp [reclaimed, Call.isReclaim]
      · exact Or.inl ⟨hlive, _, rfl⟩
      · rw [gcLoop]; simp [hlive]
    · have hlive' : isAssigned c assigned ip = false := by simpa using hlive
      cases hd : c.deallocateIP log ip with
      | some e =>
        by_cases hz : maxReap = 0
        · refine ⟨[[Call.deallocateIP ip (some e)]], ?_, ?_, ?_, ?_, ?_, ?_⟩
          · rw [gcLoop]; simp [hlive', hd, hz]
          · rw [gcLoop]; simp [hlive', hd, hz]
          · simp
          · simp only [List.length_singleton, List.take_succ_cons, List.take_zero]
            exact List.Forall₂.cons (Or.inr ⟨hlive', Or.inl ⟨e, rfl⟩⟩) List.Forall₂.nil
          · simp [reclaimed, Call.isReclaim]
          · intro h0; exact absurd hz h0
        · apply hskip [Call.deallocateIP ip (some e)]
          · simp [reclaimed, Call.isReclaim]
          · exact Or.inr ⟨hlive', Or.inl ⟨e, rfl⟩⟩
          · rw [gcLoop]; simp [hlive', hd, hz]
      | none =>
        have hseg : isGcStep c assigned ip
            [Call.deallocateIP ip none,
              Call.forgetIP ip (c.forgetIP (log ++ [Call.deallocateIP ip none]) ip)] :=
          Or.inr ⟨hlive', Or.inr ⟨_, rfl⟩⟩
        have hwrap : wrapInt64 (maxReap - 1) =
            (maxReap - 1 + 9223372036854775808) % 18446744073709551616
              - 9223372036854775808 := rfl
        by_cases hz : wrapInt64 (maxReap - 1) = 0
        · refine ⟨[[Call.deallocateIP ip none,
              Call.forgetIP ip (c.forgetIP (log ++ [Call.deallocateIP ip none]) ip)]],
            ?_, ?_, ?_, ?_, ?_, ?_⟩
          · rw [gcLoop]; simp [hlive', hd, hz]
          · rw [gcLoop]; simp [hlive', hd, hz]
          · simp
          · simp only [List.length_singleton, List.take_succ_cons, List.take_zero]
            exact List.Forall₂.cons hseg List.Forall₂.nil
          · simp [reclaimed, Call.isReclaim]
          · intro h0 h1 h2
            unfold minInt64 at h1
            unfold maxInt64 at h2
            rw [hwrap] at hz
            have hr : reclaimed [[Call.deallocateIP ip none,
                Call.forgetIP ip (c.forgetIP (log ++ [Call.deallocateIP ip none]) ip)]].flatten
                = 1 := by
              simp [reclaimed, Call.isReclaim]
            rw [hr]
            refine ⟨by push_cast; omega, fun _ => by push_cast; omega, ?_⟩
            intro _
            exact ⟨_, rfl, _, _, rfl⟩
        · obtain ⟨segs, hcalls, herr, hlen, hsteps, hone, hq⟩ :=
            ih (wrapInt64 (maxReap - 1))
              (log ++ [Call.deallocateIP ip none] ++
                [Call.forgetIP ip (c.forgetIP (log ++ [Call.deallocateIP ip none]) ip)])
          have hstep : gcLoop c assigned (ip :: rest) maxReap log =
              gcLoop c assigned rest (wrapInt64 (maxReap - 1))
                (log ++ [Call.deallocateIP ip none] ++
                  [Call.forgetIP ip (c.forgetIP (log ++ [Call.deallocateIP ip none]) ip)]) := by
            rw [gcLoop]
            simp [hlive', hd, hz]
          have hr : reclaimed ([Call.deallocateIP ip none,
              Call.forgetIP ip (c.forgetIP (log ++ [Call.deallocateIP ip none]) ip)]
                :: segs).flatten = reclaimed segs.flatten + 1 := by
            simp [reclaimed, Call.isReclaim, List.countP_cons]
          refine ⟨[Call.deallocateIP ip none,
              Call.forgetIP ip (c.forgetIP (log ++ [Call.deallocateIP ip none]) ip)] :: segs,
            ?_, ?_, ?_, ?_, ?_, ?_⟩
          · rw [hstep, hcalls]; simp
          · rw [hstep, herr]
          · simpa using hlen
          · simp only [List.length_cons, List.take_succ_cons]
            exact List.Forall₂.cons hseg hsteps
          · rw [hr, List.length_cons]; omega
          · intro h0 h1 h2
            unfold minInt64 at h1
            unfold maxInt64 at h2
            have hq' := hq hz (by rw [hwrap]; unfold minInt64; omega)
              (by rw [hwrap]; unfold maxInt64; omega)
            rw [hwrap] at hz hq'
            obtain ⟨p1, p2, p3⟩ := hq'
            rw [hr]
            push_cast
            refine ⟨by omega, ?_, ?_⟩
            · intro hlt
              have := p2 (by simpa using hlt)
              omega
            · intro heq
              obtain ⟨sg, hs, hsg⟩ := p3 (by omega)
              refine ⟨sg, ?_, hsg⟩
              cases segs with
              | nil => simp at hs
              | cons a tl => simpa [List.getLast?_cons_cons] using hs

/-- C2 fails: `registry-gc --free-after=10m --max-reap=0` with three idle
candidates and `DeallocateIP` failing on the first: the failed call leaves the
counter at `0`, the run returns, and the other two candidates are not
processed. -/
theorem actionRegistryGc_failed_stops_counterexample :
    0 < (gcContext 0).freeAfter ∧
    refusingIdleCollab.trackedBefore [] (gcCutoff refusingIdleCollab 600000000000) =
      .ok [ip_10_0_1_5, ip_10_0_1_6, ip_10_0_1_7] ∧
    (actionRegistryGc refusingIdleCollab (gcContext 0)).calls =
      [Call.trackedBefore (gcCutoff refusingIdleCollab 600000000000) none, Call.getIPs none,
        Call.deallocateIP ip_10_0_1_5 (some (goStr "deallocation refused"))] ∧
    (actionRegistryGc refusingIdleCollab (gcContext 0)).err = none := by
  decide

/-- C2, amended: a run of `actionRegistryGc` with a valid `free-after` and a
64-bit `max-reap` that got the candidates `ips` and the snapshot `assigned`
returns nil, and its loop makes one step for each of the first `segs.length`
candidates. For `max-reap = N > 0` it makes at most `N` reclamations, it leaves
candidates out only when it made exactly `N`, and when it made `N` the `N`-th
reclamation is its last step, so nothing after it is deallocated or forgotten.
For every `max-reap` other than `0` a failed `DeallocateIP` does not stop the
run: it is the last step only for the last candidate. For every negative
`max-reap`, `-1` among them, every candidate gets its step. -/
theorem actionRegistryGc_max_reap (c : Collab) (ctx : Context) (ips : List IP)
    (assigned : List BoundIP) (hlock : c.lockfile = none) (hfree : 0 < ctx.freeAfter)
    (htb : c.trackedBefore [] (gcCutoff c ctx.freeAfter) = .ok ips)
    (hgi : c.getIPs [Call.trackedBefore (gcCutoff c ctx.freeAfter) none] = .ok assigned)
    (hlen : (ips.length : Int) ≤ maxInt64)
    (hmin : minInt64 ≤ ctx.maxReap) (hmax : ctx.maxReap ≤ maxInt64) :
    (actionRegistryGc c ctx).err = none ∧
    ∃ segs : List (List Call),
      (actionRegistryGc c ctx).calls =
        [Call.trackedBefore (gcCutoff c ctx.freeAfter) none, Call.getIPs none] ++ segs.flatten ∧
      segs.length ≤ ips.length ∧
      List.Forall₂ (isGcStep c assigned) (ips.take segs.length) segs ∧
      (0 < ctx.maxReap →
        (reclaimed (actionRegistryGc c ctx).calls : Int) ≤ ctx.maxReap ∧
        (segs.length < ips.length →
          (reclaimed (actionRegistryGc c ctx).calls : Int) = ctx.maxReap) ∧
        ((reclaimed (actionRegistryGc c ctx).calls : Int) = ctx.maxReap →
          ∃ seg, segs.getLast? = some seg ∧ isReclaimSeg seg)) ∧
      (ctx.maxReap ≠ 0 →
        ∀ ip e, segs.getLast? = some [Call.deallocateIP ip (some e)] →
          segs.length = ips.length) ∧
      (ctx.maxReap < 0 → segs.length = ips.length ∧
        List.Forall₂ (isGcStep c assigned) ips segs) := by
  rw [actionRegistryGc_eq_gcLoop c ctx ips assigned hlock hfree htb hgi]
  obtain ⟨segs, hcalls, herr, hle, hsteps, hone, hq⟩ :=
    gcLoop_quota c assigned ips ctx.maxReap
      [Call.trackedBefore (gcCutoff c ctx.freeAfter) none, Call.getIPs none]
  have hmin' := hmin
  have hmax' := hmax
  have hlen' := hlen
  unfold minInt64 at hmin'
  unfold maxInt64 at hmax' hlen'
  have hall : ctx.maxReap < 0 → segs.length = ips.length := by
    intro h
    obtain ⟨_, p2, _⟩ := hq (by omega) hmin hmax
    by_contra hne
    have hlt : segs.length < ips.length := lt_of_le_of_ne hle hne
    have := p2 hlt
    omega
  refine ⟨herr, segs, hcalls, hle, hsteps, ?_, ?_, ?_⟩
  · intro h1
    rw [hcalls, reclaimed_gc_calls]
    have hmod : ctx.maxReap % 18446744073709551616 = ctx.maxReap := by omega
    have := hq (by omega) hmin hmax
    rw [hmod] at this
    exact this
  · intro h0 ip e hlast
    obtain ⟨_, p2, p3⟩ := hq h0 hmin hmax
    by_contra hne
    have hlt : segs.length < ips.length := lt_of_le_of_ne hle hne
    obtain ⟨seg, hs, ip', e', hseg⟩ := p3 (p2 hlt)
    rw [hlast] at hs
    simp only [Option.some.injEq] at hs
    rw [← hs] at hseg
    simp at hseg
  · intro h
    have := hall h
    refine ⟨this, ?_⟩
    rw [this, List.take_length] at hsteps
    exact hsteps

/-- C2, amended, with three idle candidates and `--max-reap=1`: the run stops
after the first reclamation. -/
theorem actionRegistryGc_max_reap_witness :
    (actionRegistryGc idleCollab (gcContext 1)).calls =
      [Call.trackedBefore (gcCutoff idleCollab 600000000000) none, Call.getIPs none,
        Call.deallocateIP ip_10_0_1_5 none, Call.forgetIP ip_10_0_1_5 none] ∧
    (actionRegistryGc idleCollab (gcContext 1)).err = none :=
  ⟨by decide,
    (actionRegistryGc_max_reap idleCollab (gcContext 1) [ip_10_0_1_5, ip_10_0_1_6, ip_10_0_1_7]
      [] rfl (by decide) rfl rfl (by decide) (by decide) (by decide)).1⟩

/-- C3: with `free-after ≤ 0` (the flag's default is `0`) `actionRegistryGc`
returns an error, `invalid duration` when it holds the lock, and makes no
collaborator call. With `free-after > 0` and the lock held the validation
passes: the first call is `TrackedBefore` at the cutoff, and the action returns
the error of `TrackedBefore`, else the error of `GetIPs`, else nil. -/
theorem actionRegistryGc_free_after (c : Collab) (ctx : Context) :
    (ctx.freeAfter ≤ 0 →
      (actionRegistryGc c ctx).err ≠ none ∧ (actionRegistryGc c ctx).calls = [] ∧
      (c.lockfile = none → (actionRegistryGc c ctx).err = some (goStr "invalid duration"))) ∧
    (0 < ctx.freeAfter → c.lockfile = none →
      (∃ e, (actionRegistryGc c ctx).calls.head? =
        some (Call.trackedBefore (gcCutoff c ctx.freeAfter) e)) ∧
      (actionRegistryGc c ctx).err =
        match c.trackedBefore [] (gcCutoff c ctx.freeAfter) with
        | .error e => some e
        | .ok _ =>
          match c.getIPs [Call.trackedBefore (gcCutoff c ctx.freeAfter) none] with
          | .error e => some e
          | .ok _ => none) := by
  constructor
  · intro h
    cases hl : c.lockfile <;> simp [actionRegistryGc, LockfileRun, hl, h]
  · intro h hl
    have hnot : ¬ ctx.freeAfter ≤ 0 := by omega
    cases htb : c.trackedBefore [] (gcCutoff c ctx.freeAfter) with
    | error e => simp [actionRegistryGc, LockfileRun, hl, hnot, htb]
    | ok ips =>
      cases hgi : c.getIPs [Call.trackedBefore (gcCutoff c ctx.freeAfter) none] with
      | error e => simp [actionRegistryGc, LockfileRun, hl, hnot, htb, hgi]
      | ok assigned =>
        rw [actionRegistryGc_eq_gcLoop c ctx ips assigned hl h htb hgi]
        obtain ⟨segs, hcalls, herr, _⟩ :=
          gcLoop_trace c assigned ips ctx.maxReap
            [Call.trackedBefore (gcCutoff c ctx.freeAfter) none, Call.getIPs none]
        rw [hcalls, herr]
        simp

/-- C3 at the default flags (`free-after` is `0`) and at `--free-after=10m`. -/
theorem actionRegistryGc_free_after_witness :
    ((actionRegistryGc idleCollab {}).err ≠ none ∧ (actionRegistryGc idleCollab {}).calls = [] ∧
      (idleCollab.lockfile = none →
        (actionRegistryGc idleCollab {}).err = some (goStr "invalid duration"))) ∧
    (actionRegistryGc idleCollab (gcContext (-1))).err = none :=
  ⟨(actionRegistryGc_free_after idleCollab {}).1 (by decide), by decide⟩

/-- C10 at `--max-reap=0` with three idle candidates: the counter is `0` before
the loop, yet the run calls `DeallocateIP` on all three and reclaims them. -/
theorem actionRegistryGc_max_reap_zero :
    (gcContext 0).maxReap = 0 ∧
    (actionRegistryGc idleCollab (gcContext 0)).calls =
      [Call.trackedBefore (gcCutoff idleCollab 600000000000) none, Call.getIPs none,
        Call.deallocateIP ip_10_0_1_5 none, Call.forgetIP ip_10_0_1_5 none,
        Call.deallocateIP ip_10_0_1_6 none, Call.forgetIP ip_10_0_1_6 none,
        Call.deallocateIP ip_10_0_1_7 none, Call.forgetIP ip_10_0_1_7 none] ∧
    reclaimed (actionRegistryGc idleCollab (gcContext 0)).calls = 3 := by
  decide

/-! ## actionDeallocate -/

theorem deallocateLoop_run (c : Collab) (args : List GoString) (log : List Call) :
    DeallocateRun c log args (deallocateLoop c args log) := by
  induction args generalizing log with
  | nil =>
    exact ⟨[], [], [], rfl, List.Forall₂.nil, Or.inl ⟨rfl, by simp [deallocateLoop], rfl⟩⟩
  | cons a rest ih =>
    by_cases hshort : a.length < 6
    · refine ⟨[], a :: rest, [], rfl, List.Forall₂.nil, Or.inr (Or.inl ⟨a, rest, rfl, Or.inl hshort, ?_, ?_⟩)⟩
      · simp [deallocateLoop, hshort]
      · simp [deallocateLoop, hshort]
    · cases hp : c.parseIP a with
      | none =>
        refine ⟨[], a :: rest, [], rfl, List.Forall₂.nil, Or.inr (Or.inl ⟨a, rest, rfl, Or.inr hp, ?_, ?_⟩)⟩
        · simp [deallocateLoop, hshort, hp]
        · simp [deallocateLoop, hshort, hp]
      | some ip =>
        cases hd : c.deallocateIP log ip with
        | some e =>
          refine ⟨[], a :: rest, [], rfl, List.Forall₂.nil,
            Or.inr (Or.inr ⟨a, rest, ip, e, rfl, by omega, hp, ?_, ?_⟩)⟩
          · simp [deallocateLoop, hshort, hp, hd]
          · simp [deallocateLoop, hshort, hp, hd]
        | none =>
          have hstep : deallocateLoop c (a :: rest) log =
              deallocateLoop c rest (log ++ [Call.deallocateIP ip none]) := by
            rw [deallocateLoop]
            simp [hshort, hp, hd]
          rw [hstep]
          obtain ⟨pre, post, calls, hargs, hsteps, hcases⟩ :=
            ih (log ++ [Call.deallocateIP ip none])
          refine ⟨a :: pre, post, Call.deallocateIP ip none :: calls, by simp [hargs],
            List.Forall₂.cons ⟨by omega, ip, hp, rfl⟩ hsteps, ?_⟩
          rcases hcases with ⟨h1, h2, h3⟩ | ⟨b, r, h1, h2, h3, h4⟩ | ⟨b, r, ip', e, h1, h2, h3, h4, h5⟩
          · exact Or.inl ⟨h1, by simpa using h2, h3⟩
          · exact Or.inr (Or.inl ⟨b, r, h1, h2, by simpa using h3, h4⟩)
          · exact Or.inr (Or.inr ⟨b, r, ip', e, h1, h2, h3, by simpa using h4, h5⟩)

theorem forall₂_deallocStep_call (c : Collab) (pre : List GoString) (calls : List Call)
    (h : List.Forall₂ (isDeallocStep c) pre calls) (call : Call) (hc : call ∈ calls) :
    ∃ a ∈ pre, isDeallocStep c a call := by
  induction h with
  | nil => simp at hc
  | cons hR _ ih =>
    rcases List.mem_cons.mp hc with rfl | hc
    · exact ⟨_, List.mem_cons_self _ _, hR⟩
    · obtain ⟨a, ha, hs⟩ := ih hc
      exact ⟨a, List.mem_cons_of_mem _ ha, hs⟩

theorem forall₂_deallocStep_arg (c : Collab) (pre : List GoString) (calls : List Call)
    (h : List.Forall₂ (isDeallocStep c) pre calls) (a : GoString) (ha : a ∈ pre) :
    6 ≤ a.length ∧ ∃ ip, c.parseIP a = some ip := by
  induction h with
  | nil => simp at ha
  | cons hR _ ih =>
    rcases List.mem_cons.mp ha with rfl | ha
    · exact ⟨hR.1, hR.2.choose, hR.2.choose_spec.1⟩
    · exact ih ha

theorem actionDeallocate_run (c : Collab) (ctx : Context) (hlock : c.lockfile = none) :
    DeallocateRun c [] ctx.args (actionDeallocate c ctx) := by
  have := deallocateLoop_run c ctx.args []
  simpa [actionDeallocate, LockfileRun, hlock] using this

/-- C4: every call `actionDeallocate` makes is a `DeallocateIP` on the address
some argument parses to, so none is made for an argument `net.ParseIP` rejects;
when some argument does not parse the action returns an error; and when the
first argument does not parse it returns an error without any call. -/
theorem actionDeallocate_unparseable (c : Collab) (ctx : Context) :
    (∀ call ∈ (actionDeallocate c ctx).calls,
      ∃ a ∈ ctx.args, ∃ ip e, c.parseIP a = some ip ∧ call = Call.deallocateIP ip e) ∧
    ((∃ a ∈ ctx.args, c.parseIP a = none) → (actionDeallocate c ctx).err ≠ none) ∧
    (∀ a rest, ctx.args = a :: rest → c.parseIP a = none →
      (actionDeallocate c ctx).err ≠ none ∧ (actionDeallocate c ctx).calls = []) := by
  cases hlock : c.lockfile with
  | some e => simp [actionDeallocate, LockfileRun, hlock]
  | none =>
    obtain ⟨pre, post, calls, hargs, hsteps, hcases⟩ := actionDeallocate_run c ctx hlock
    have hpre : ∀ call ∈ calls,
        ∃ a ∈ ctx.args, ∃ ip e, c.parseIP a = some ip ∧ call = Call.deallocateIP ip e := by
      intro call hc
      obtain ⟨a, ha, _, ip, hp, hcall⟩ := forall₂_deallocStep_call c pre calls hsteps call hc
      exact ⟨a, by simp [hargs, ha], ip, none, hp, hcall⟩
    refine ⟨?_, ?_, ?_⟩
    · intro call hc
      rcases hcases with ⟨_, h2, _⟩ | ⟨b, r, _, _, h3, _⟩ | ⟨b, r, ip, e, h1, _, h3, h4, _⟩
      · exact hpre call (by simpa [h2] using hc)
      · exact hpre call (by simpa [h3] using hc)
      · rw [h4] at hc
        simp only [List.nil_append, List.mem_append, List.mem_singleton] at hc
        rcases hc with hc | rfl
        · exact hpre call hc
        · exact ⟨b, by simp [hargs, h1], ip, some e, h3, rfl⟩
    · rintro ⟨a, ha, hnone⟩
      rcases hcases with ⟨h1, _, _⟩ | ⟨_, _, _, _, _, h4⟩ | ⟨_, _, _, e, _, _, _, _, h5⟩
      · subst h1
        rw [hargs, List.append_nil] at ha
        obtain ⟨_, ip, hp⟩ := forall₂_deallocStep_arg c pre calls hsteps a ha
        rw [hnone] at hp
        cases hp
      · exact h4
      · simp [h5]
    · intro a rest hcons hnone
      cases pre with
      | cons x xs =>
        have hx : x = a := by
          rw [hcons] at hargs
          simp only [List.cons_append, List.cons.injEq] at hargs
          exact hargs.1.symm
        obtain ⟨_, ip, hp⟩ := forall₂_deallocStep_arg c _ calls hsteps x (List.mem_cons_self _ _)
        rw [hx, hnone] at hp
        cases hp
      | nil =>
        cases hsteps
        rw [hcons] at hargs
        simp only [List.nil_append] at hargs
        rcases hcases with ⟨h1, _, _⟩ | ⟨b, r, h1, _, h3, h4⟩ | ⟨b, r, ip, e, h1, _, h3, _, _⟩
        · rw [h1] at hargs
          cases hargs
        · exact ⟨h4, by simpa using h3⟩
        · rw [h1] at hargs
          simp only [List.cons.injEq] at hargs
          rw [← hargs.1, hnone] at h3
          cases h3

/-- C4 at `deallocate not-an-ip 10.0.1.6`: an error and no call. -/
theorem actionDeallocate_unparseable_witness :
    (actionDeallocate quietCollab { args := [goStr "not-an-ip", goStr "10.0.1.6"] }).err ≠ none ∧
    (actionDeallocate quietCollab { args := [goStr "not-an-ip", goStr "10.0.1.6"] }).calls = [] :=
  (actionDeallocate_unparseable quietCollab
    { args := [goStr "not-an-ip", goStr "10.0.1.6"] }).2.2 _ _ rfl (by decide)

/-- C7 fails: `deallocate not-an-ip 10.0.1.6` makes no call although `10.0.1.6`
is a valid address, and `deallocate 10.0.1.5 10.0.1.6`, with `DeallocateIP`
failing on `10.0.1.5`, makes that one call and none for `10.0.1.6`. -/
theorem actionDeallocate_continues_counterexample :
    quietCollab.parseIP (goStr "10.0.1.6") = some ip_10_0_1_6 ∧
    quietCollab.deallocateIP [] ip_10_0_1_6 = none ∧
    (actionDeallocate quietCollab { args := [goStr "not-an-ip", goStr "10.0.1.6"] }).calls = [] ∧
    refusingCollab.parseIP (goStr "10.0.1.6") = some ip_10_0_1_6 ∧
    (actionDeallocate refusingCollab { args := [goStr "10.0.1.5", goStr "10.0.1.6"] }).calls =
      [Call.deallocateIP ip_10_0_1_5 (some (goStr "deallocation refused"))] := by
  decide

/-- C7, amended: with the lock held, `actionDeallocate` attempts `DeallocateIP`
for the arguments in order and stops at the first argument that is shorter than
6 bytes, does not parse, or whose `DeallocateIP` fails; it returns that error and
makes no call for a later argument (`DeallocateRun`). It returns nil only when
every argument was valid and deallocated with success. -/
theorem actionDeallocate_stops_at_first_failure (c : Collab) (ctx : Context)
    (hlock : c.lockfile = none) :
    DeallocateRun c [] ctx.args (actionDeallocate c ctx) ∧
    ((actionDeallocate c ctx).err = none →
      List.Forall₂ (isDeallocStep c) ctx.args (actionDeallocate c ctx).calls) := by
  have hrun := actionDeallocate_run c ctx hlock
  refine ⟨hrun, ?_⟩
  intro herr
  obtain ⟨pre, post, calls, hargs, hsteps, hcases⟩ := hrun
  rcases hcases with ⟨h1, h2, _⟩ | ⟨_, _, _, _, _, h4⟩ | ⟨_, _, _, e, _, _, _, _, h5⟩
  · rw [hargs, h1, List.append_nil, h2, List.nil_append]
    exact hsteps
  · exact absurd herr h4
  · rw [herr] at h5
    cases h5

/-- C7, amended, at `deallocate 10.0.1.5 10.0.1.6` with `DeallocateIP` failing on
`10.0.1.5`. -/
theorem actionDeallocate_stops_at_first_failure_witness :
    refusingCollab.lockfile = none ∧
    DeallocateRun refusingCollab [] [goStr "10.0.1.5", goStr "10.0.1.6"]
      (actionDeallocate refusingCollab { args := [goStr "10.0.1.5", goStr "10.0.1.6"] }) :=
  ⟨rfl, (actionDeallocate_stops_at_first_failure refusingCollab
    { args := [goStr "10.0.1.5", goStr "10.0.1.6"] } rfl).1⟩

/-- C8 at an empty argument list: `actionNewInterface` and
`actionRemoveInterface` return an error without any call, and
`actionDeallocate` makes no call either but returns what `LockfileRun` gives for
the lock alone, which is nil when the lock is held. -/
theorem empty_arguments (c : Collab) (ctx : Context) :
    ((actionNewInterface c { ctx with args := [] }).err ≠ none ∧
      (actionNewInterface c { ctx with args := [] }).calls = []) ∧
    ((actionRemoveInterface c { ctx with args := [] }).err ≠ none ∧
      (actionRemoveInterface c { ctx with args := [] }).calls = []) ∧
    (actionDeallocate c { ctx with args := [] }).err = c.lockfile ∧
    (actionDeallocate c { ctx with args := [] }).calls = [] ∧
    (actionDeallocate quietCollab {}).err = none := by
  refine ⟨?_, ?_, ?_, ?_, by decide⟩
  · cases hl : c.lockfile with
    | some e => simp [actionNewInterface, LockfileRun, hl]
    | none =>
      cases hf : filterBuild ctx.subnetFilter <;>
        simp [actionNewInterface, LockfileRun, hl, hf]
  · cases hl : c.lockfile <;> simp [actionRemoveInterface, LockfileRun, hl]
  · cases hl : c.lockfile <;> simp [actionDeallocate, LockfileRun, hl, deallocateLoop]
  · cases hl : c.lockfile <;> simp [actionDeallocate, LockfileRun, hl, deallocateLoop]

/-! ## Errors of the collaborators -/

theorem deallocateLoop_failed_call (c : Collab) (args : List GoString) (log : List Call)
    (hlog : ∀ call ∈ log, call.err = none) (call : Call)
    (hc : call ∈ (deallocateLoop c args log).calls) (hfail : call.err ≠ none) :
    (deallocateLoop c args log).err ≠ none := by
  obtain ⟨pre, post, calls, _, hsteps, hcases⟩ := deallocateLoop_run c args log
  have hok : ∀ x ∈ log ++ calls, x.err = none := by
    intro x hx
    rcases List.mem_append.mp hx with hx | hx
    · exact hlog x hx
    · obtain ⟨_, _, _, ip, _, rfl⟩ := forall₂_deallocStep_call c pre calls hsteps x hx
      rfl
  rcases hcases with ⟨_, h2, _⟩ | ⟨_, _, _, _, _, h4⟩ | ⟨_, _, _, e, _, _, _, _, h5⟩
  · rw [h2] at hc
    exact absurd (hok call hc) hfail
  · exact h4
  · simp [h5]

theorem vpcCidrLoop_calls (c : Collab) (ifs : List Interface) (log : List Call) (call : Call)
    (hc : call ∈ vpcCidrLoop c ifs log) :
    call ∈ log ∨ ∃ v e, call = Call.describeVPCCIDRs v e := by
  induction ifs generalizing log with
  | nil => exact Or.inl hc
  | cons i rest ih =>
    rw [vpcCidrLoop] at hc
    rcases ih _ hc with h | h
    · rcases List.mem_append.mp h with h | h
      · exact Or.inl h
      · exact Or.inr ⟨_, _, List.mem_singleton.mp h⟩
    · exact Or.inr h

theorem vpcPeerCidrLoop_calls (c : Collab) (ifs : List Interface) (log : List Call)
    (call : Call) (hc : call ∈ vpcPeerCidrLoop c ifs log) :
    call ∈ log ∨ ∃ v e, call = Call.describeVPCPeerCIDRs v e := by
  induction ifs generalizing log with
  | nil => exact Or.inl hc
  | cons i rest ih =>
    rw [vpcPeerCidrLoop] at hc
    rcases ih _ hc with h | h
    · rcases List.mem_append.mp h with h | h
      · exact Or.inl h
      · exact Or.inr ⟨_, _, List.mem_singleton.mp h⟩
    · exact Or.inr h

theorem gcLoop_calls (c : Collab) (assigned : List BoundIP) (ips : List IP) (maxReap : Int)
    (log : List Call) (call : Call) (hc : call ∈ (gcLoop c assigned ips maxReap log).calls) :
    call ∈ log ∨ (∃ ip e, call = Call.deallocateIP ip e) ∨ ∃ ip e, call = Call.forgetIP ip e := by
  obtain ⟨segs, hcalls, _, _, hsteps, _, _⟩ := gcLoop_trace c assigned ips maxReap log
  rw [hcalls] at hc
  rcases List.mem_append.mp hc with h | h
  · exact Or.inl h
  · right
    obtain ⟨a, seg, _, hstep, hin⟩ := forall₂_mem_flatten _ _ _ hsteps _ h
    rcases hstep with ⟨_, e', rfl⟩ | ⟨_, ⟨e', rfl⟩ | ⟨e', rfl⟩⟩
    · exact Or.inr ⟨_, _, List.mem_singleton.mp hin⟩
    · exact Or.inl ⟨_, _, List.mem_singleton.mp hin⟩
    · simp only [List.mem_cons, List.mem_singleton, List.not_mem_nil, or_false] at hin
      rcases hin with rfl | rfl
      · exact Or.inl ⟨_, _, rfl⟩
      · exact Or.inr ⟨_, _, rfl⟩

/-- C9 fails: `registry-gc` with every `DeallocateIP` failing, and `vpccidr` and
`vpcpeercidr` with the CIDR lookup failing, each make a call that returns an
error and return nil. -/
theorem swallowed_error_counterexample :
    ((actionRegistryGc failingCollab (gcContext (-1))).calls =
      [Call.trackedBefore (gcCutoff failingCollab 600000000000) none, Call.getIPs none,
        Call.deallocateIP ip_10_0_1_5 (some (goStr "deallocation refused")),
        Call.deallocateIP ip_10_0_1_6 (some (goStr "deallocation refused")),
        Call.deallocateIP ip_10_0_1_7 (some (goStr "deallocation refused"))] ∧
      (actionRegistryGc failingCollab (gcContext (-1))).err = none) ∧
    ((actionVpcCidr vpcFailingCollab {}).calls =
      [Call.getInterfaces none,
        Call.describeVPCCIDRs (goStr "vpc-1") (some (goStr "describe failed"))] ∧
      (actionVpcCidr vpcFailingCollab {}).err = none) ∧
    ((actionVpcPeerCidr vpcFailingCollab {}).calls =
      [Call.getInterfaces none,
        Call.describeVPCPeerCIDRs (goStr "vpc-1") (some (goStr "describe failed"))] ∧
      (actionVpcPeerCidr vpcFailingCollab {}).err = none) := by
  decide

/-- C9, amended: for every command, when a call the action makes returns an
error and the call is not one whose error the action drops (`errorDropped`:
`DescribeVPCCIDRs` in `vpccidr`, `DescribeVPCPeerCIDRs` in `vpcpeercidr`,
`DeallocateIP` and `ForgetIP` in `registry-gc`), the action returns an error. -/
theorem checked_error_returned (cmd : Command) (c : Collab) (ctx : Context) (call : Call)
    (hc : call ∈ (cmd.action c ctx).calls) (hfail : call.err ≠ none)
    (hchecked : errorDropped cmd call = false) :
    (cmd.action c ctx).err ≠ none := by
  cases hl : c.lockfile with
  | some e0 =>
    cases cmd
    case freeIps =>
      simp only [Command.action, actionFreeIps] at hc ⊢
      cases h : c.findFreeIPsAtIndex [] 0 false <;> simp_all [Call.err]
    case eniif =>
      simp only [Command.action, actionEniIf] at hc ⊢
      cases h : c.getInterfaces [] <;> simp_all [Call.err]
    case addr =>
      simp only [Command.action, actionAddr] at hc ⊢
      cases h : c.getIPs [] <;> simp_all [Call.err]
    case subnets =>
      simp only [Command.action, actionSubnets] at hc ⊢
      cases h : c.getSubnetsForInstance [] <;> simp_all [Call.err]
    case limits =>
      simp only [Command.action, actionLimits] at hc ⊢
      cases h : c.eniLimits [] <;> simp_all [Call.err]
    case maxpods =>
      simp only [Command.action, actionMaxPods] at hc ⊢
      cases h : c.eniLimits [] <;> simp_all [Call.err]
    case vpccidr =>
      simp only [Command.action, actionVpcCidr] at hc ⊢
      cases h : c.getInterfaces [] with
      | error e => simp [h]
      | ok ifs =>
        simp only [h] at hc
        rcases vpcCidrLoop_calls c ifs _ call hc with h1 | ⟨v, e, rfl⟩
        · simp only [List.mem_singleton] at h1
          subst h1
          exact absurd rfl hfail
        · simp [errorDropped] at hchecked
    case vpcpeercidr =>
      simp only [Command.action, actionVpcPeerCidr] at hc ⊢
      cases h : c.getInterfaces [] with
      | error e => simp [h]
      | ok ifs =>
        simp only [h] at hc
        rcases vpcPeerCidrLoop_calls c ifs _ call hc with h1 | ⟨v, e, rfl⟩
        · simp only [List.mem_singleton] at h1
          subst h1
          exact absurd rfl hfail
        · simp [errorDropped] at hchecked
    all_goals
      simp [Command.action, actionNewInterface, actionRemoveInterface, actionDeallocate,
        actionAllocate, actionBugs, actionRegistryList, actionRegistryGc, LockfileRun, hl]
  | none =>
    cases cmd
    case newInterface =>
      simp only [Command.action, actionNewInterface, LockfileRun, hl] at hc ⊢
      cases hf : filterBuild ctx.subnetFilter with
      | error e => simp
      | ok filters =>
        simp only [hf] at hc ⊢
        by_cases ha : ctx.args.length ≤ 0
        · simp [ha]
        · simp only [ha, if_false] at hc ⊢
          cases h : c.newInterface [] ctx.args filters ctx.ipBatchSize <;> simp_all [Call.err]
    case removeInterface =>
      simp only [Command.action, actionRemoveInterface, LockfileRun, hl] at hc ⊢
      by_cases ha : ctx.args.length ≤ 0
      · simp [ha]
      · simp only [ha, if_false] at hc ⊢
        cases h : c.removeInterface [] ctx.args <;> simp_all [Call.err]
    case deallocate =>
      simp only [Command.action, actionDeallocate, LockfileRun, hl] at hc ⊢
      exact deallocateLoop_failed_call c ctx.args [] (by simp) call hc hfail
    case allocateFirstAvailable =>
      simp only [Command.action, actionAllocate, LockfileRun, hl] at hc ⊢
      cases h : c.allocateIPsFirstAvailableAtIndex [] ctx.index ctx.ipBatchSize <;>
        simp_all [Call.err]
    case freeIps =>
      simp only [Command.action, actionFreeIps] at hc ⊢
      cases h : c.findFreeIPsAtIndex [] 0 false <;> simp_all [Call.err]
    case eniif =>
      simp only [Command.action, actionEniIf] at hc ⊢
      cases h : c.getInterfaces [] <;> simp_all [Call.err]
    case addr =>
      simp only [Command.action, actionAddr] at hc ⊢
      cases h : c.getIPs [] <;> simp_all [Call.err]
    case subnets =>
      simp only [Command.action, actionSubnets] at hc ⊢
      cases h : c.getSubnetsForInstance [] <;> simp_all [Call.err]
    case limits =>
      simp only [Command.action, actionLimits] at hc ⊢
      cases h : c.eniLimits [] <;> simp_all [Call.err]
    case maxpods =>
      simp only [Command.action, actionMaxPods] at hc ⊢
      cases h : c.eniLimits [] <;> simp_all [Call.err]
    case bugs =>
      simp only [Command.action, actionBugs, LockfileRun, hl, List.mem_singleton] at hc
      subst hc
      exact absurd rfl hfail
    case vpccidr =>
      simp only [Command.action, actionVpcCidr] at hc ⊢
      cases h : c.getInterfaces [] with
      | error e => simp [h]
      | ok ifs =>
        simp only [h] at hc
        rcases vpcCidrLoop_calls c ifs _ call hc with h1 | ⟨v, e, rfl⟩
        · simp only [List.mem_singleton] at h1
          subst h1
          exact absurd rfl hfail
        · simp [errorDropped] at hchecked
    case vpcpeercidr =>
      simp only [Command.action, actionVpcPeerCidr] at hc ⊢
      cases h : c.getInterfaces [] with
      | error e => simp [h]
      | ok ifs =>
        simp only [h] at hc
        rcases vpcPeerCidrLoop_calls c ifs _ call hc with h1 | ⟨v, e, rfl⟩
        · simp only [List.mem_singleton] at h1
          subst h1
          exact absurd rfl hfail
        · simp [errorDropped] at hchecked
    case registryList =>
      simp only [Command.action, actionRegistryList, LockfileRun, hl] at hc ⊢
      cases h : c.registryList [] <;> simp_all [Call.err]
    case registryGc =>
      simp only [Command.action, actionRegistryGc, LockfileRun, hl] at hc ⊢
      by_cases hz : ctx.freeAfter ≤ 0
      · simp [hz]
      · simp only [hz, if_false] at hc ⊢
        cases htb : c.trackedBefore [] (gcCutoff c ctx.freeAfter) with
        | error e => simp
        | ok ips =>
          simp only [htb] at hc ⊢
          cases hgi : c.getIPs [Call.trackedBefore (gcCutoff c ctx.freeAfter) none] with
          | error e => simp
          | ok assigned =>
            simp only [hgi] at hc ⊢
            rcases gcLoop_calls c assigned ips _ _ call hc with h1 | ⟨ip, e, rfl⟩ | ⟨ip, e, rfl⟩
            · simp only [List.mem_cons, List.mem_singleton, List.not_mem_nil, or_false] at h1
              rcases h1 with rfl | rfl
              · exact absurd rfl hfail
              · exact absurd rfl hfail
            · simp [errorDropped] at hchecked
            · simp [errorDropped] at hchecked

/-- C9, amended, at `deallocate 10.0.1.5 10.0.1.6` with `DeallocateIP` failing
on `10.0.1.5`: the action returns an error. -/
theorem checked_error_returned_witness :
    (Command.deallocate.action refusingCollab
      { args := [goStr "10.0.1.5", goStr "10.0.1.6"] }).err ≠ none :=
  checked_error_returned Command.deallocate refusingCollab
    { args := [goStr "10.0.1.5", goStr "10.0.1.6"] }
    (Call.deallocateIP ip_10_0_1_5 (some (goStr "deallocation refused")))
    (by decide) (by decide) (by decide)

end CniTool
